import Mathlib

/-
  Shallow embedding of hiyasame/bplustree-rs: src/block.rs (the in-memory
  block engine) and src/tree.rs (the B+ tree built on it), with the key type
  specialised to Nat and the value type kept generic.

  Modelling conventions:
  * Machine integers (usize) are Nat; no operation in the sources overflows.
  * A Rust panic (an `unwrap` of an engine error, an assertion failure, an
    out-of-bounds Vec operation, or fuel exhaustion standing for unbounded
    recursion) is the `Failure.panicked` outcome; `anyhow` errors produced by
    the engine range / free-list checks are `Failure.invalidBlockId`.
  * The in-memory engine guards alias the engine storage directly and its
    write-back hook is a no-op, so a fetch-write guard collapses to reading
    the block now and writing updated blocks back at each mutation point.
  * The `Cell<Option<BlockId>>` threaded through the recursion is either the
    local cell of the top-level call or the `parent` field of the node stored
    at some block; `PCell` names which one, and reads/writes go through the
    engine state, mirroring the aliasing in the source.
-/

namespace BPTree

/-- Failure outcomes of engine and tree operations. Lock-acquisition
failures cannot occur in this single-threaded functional model, because a
lock is only poisoned after a panic, which aborts the program. -/
inductive Failure where
  | invalidBlockId : Failure
  | panicked : Failure
deriving DecidableEq

/-- `BPlusTreeNode<K, V>` from tree.rs, with `K = Nat`. The `parent` field
is the interior `Cell<Option<BlockId>>`. -/
structure BPlusTreeNode (V : Type) where
  parent : Option Nat
  way : Nat
  isLeaf : Bool
  keys : List Nat
  values : List V
  prev : Option Nat
  next : Option Nat
  pointers : List Nat
deriving DecidableEq

/-- `Block<B>` from block.rs: validity metadata plus optional content. The
`id` field always equals the index of the block in the engine, so it is not
duplicated here. -/
structure Block (V : Type) where
  valid : Bool
  content : Option (BPlusTreeNode V)
deriving DecidableEq

/-- `MemoryBlockEngine<B>` from block.rs. The free list is kept with the
most recently freed id first (Rust pushes to and pops from the end of the
vector). -/
structure MemoryBlockEngine (V : Type) where
  blocks : List (Block V)
  nextBlockId : Nat
  freeList : List Nat
deriving DecidableEq

/-- Writes a block at an index of the engine storage (the effect of
mutating through a write guard, whose release invokes the no-op
write-back hook). -/
def setBlockAt (e : MemoryBlockEngine V) (id : Nat) (b : Block V) :
    MemoryBlockEngine V :=
  { e with blocks := e.blocks.set id b }

/-- The statement `self.blocks[block_id].write().unwrap().valid = true` of
`alloc_block`; an out-of-range index is a panic. -/
def markValid (e : MemoryBlockEngine V) (id : Nat) :
    Except Failure (MemoryBlockEngine V) :=
  match e.blocks.get? id with
  | some b => .ok (setBlockAt e id { b with valid := true })
  | none => .error .panicked

/-- `MemoryBlockEngine::alloc_block` (block.rs lines 102-113): reuse the
most recently freed id if the free list is nonempty, else grow with a fresh
sequential id; in both cases mark the block valid. -/
def allocBlock (e : MemoryBlockEngine V) :
    Except Failure (Nat × MemoryBlockEngine V) :=
  match e.freeList with
  | id :: rest =>
    match markValid { e with freeList := rest } id with
    | .ok e1 => .ok (id, e1)
    | .error f => .error f
  | [] =>
    let id := e.nextBlockId
    match markValid { e with nextBlockId := id + 1,
                             blocks := e.blocks ++ [⟨false, none⟩] } id with
    | .ok e1 => .ok (id, e1)
    | .error f => .error f

/-- `fetch_read` / `fetch_write` of the in-memory engine (block.rs lines
115-135): fail with an invalid-block-id error when the id is at or beyond
the allocation bound; otherwise hand out the block. The bound check does
not consult the free list. -/
def fetchBlock (e : MemoryBlockEngine V) (id : Nat) :
    Except Failure (Block V) :=
  if e.nextBlockId ≤ id then .error .invalidBlockId
  else
    match e.blocks.get? id with
    | some b => .ok b
    | none => .error .panicked

/-- The default `alloc_write` of the `BlockEngine` trait (block.rs lines
18-24): allocate, then write the item and mark the block valid. -/
def allocWrite (e : MemoryBlockEngine V) (item : BPlusTreeNode V) :
    Except Failure (Nat × MemoryBlockEngine V) :=
  match allocBlock e with
  | .error f => .error f
  | .ok (id, e1) =>
    match fetchBlock e1 id with
    | .error f => .error f
    | .ok blk =>
      .ok (id, setBlockAt e1 id { blk with valid := true, content := some item })

/-- `MemoryBlockEngine::delete` (block.rs lines 137-143). The engine state
is returned alongside the result and is unchanged on failure. -/
def engineDelete (e : MemoryBlockEngine V) (id : Nat) :
    Except Failure (Option (BPlusTreeNode V)) × MemoryBlockEngine V :=
  if e.nextBlockId ≤ id ∨ id ∈ e.freeList then (.error .invalidBlockId, e)
  else
    match e.blocks.get? id with
    | none => (.error .panicked, e)
    | some b =>
      (.ok b.content,
       { e with freeList := id :: e.freeList,
                blocks := e.blocks.set id { b with content := none } })

/-- The loop of `slice::binary_search` from the Rust core library, which
both tree files call on the sorted key vectors. The interval `[left, right)`
shrinks strictly at every iteration, so `fuel = length + 1` never runs out. -/
def bsearchGo (ks : List Nat) (key : Nat) : Nat → Nat → Nat → Nat ⊕ Nat
  | left, _, 0 => Sum.inr left
  | left, right, fuel + 1 =>
    if left < right then
      let mid := left + (right - left) / 2
      let x := ks.getD mid 0
      if x < key then bsearchGo ks key (mid + 1) right fuel
      else if key < x then bsearchGo ks key left mid fuel
      else Sum.inl mid
    else Sum.inr left

/-- `keys.binary_search(key)`: `Sum.inl i` is `Ok(i)` (an exact match at
index `i`), `Sum.inr e` is `Err(e)` (the insertion point). -/
def binarySearch (ks : List Nat) (key : Nat) : Nat ⊕ Nat :=
  bsearchGo ks key 0 ks.length (ks.length + 1)

/-- `.unwrap_or_else(|e| e)` applied to a `binary_search` result. -/
def unwrapOrIdx : Nat ⊕ Nat → Nat
  | Sum.inl i => i
  | Sum.inr e => e

/-- `Vec::insert`: shifts the tail right; `none` models the panic when the
index exceeds the length. -/
def vecInsert : List α → Nat → α → Option (List α)
  | l, 0, a => some (a :: l)
  | [], _ + 1, _ => none
  | x :: xs, n + 1, a => (vecInsert xs n a).map (fun t => x :: t)

/-- `Vec::remove`: returns the removed element and the remaining list;
`none` models the panic when the index is out of range. -/
def vecRemove : List α → Nat → Option (α × List α)
  | [], _ => none
  | x :: xs, 0 => some (x, xs)
  | x :: xs, n + 1 => (vecRemove xs n).map (fun p => (p.1, x :: p.2))

/-- A `&Cell<Option<BlockId>>` threaded through the recursive helpers:
either the local cell created by the top-level `insert` / `delete` call, or
the `parent` field of the node stored at a given block id. -/
inductive PCell where
  | top : PCell
  | nodeField : Nat → PCell
deriving DecidableEq

/-- `Cell::get`. `tv` is the current value of the top-level local cell. -/
def cellGet (e : MemoryBlockEngine V) (tv : Option Nat) : PCell → Option Nat
  | .top => tv
  | .nodeField i =>
    match e.blocks.get? i with
    | some ⟨_, some n⟩ => n.parent
    | _ => none

/-- `Cell::set`: returns the updated engine and top-level cell value. A
write through a cell living inside a node updates that node in the engine
storage, which is what the source does through the aliased guards. -/
def cellSet (e : MemoryBlockEngine V) (tv : Option Nat) (c : PCell)
    (v : Option Nat) : MemoryBlockEngine V × Option Nat :=
  match c with
  | .top => (e, v)
  | .nodeField i =>
    match e.blocks.get? i with
    | some ⟨vl, some n⟩ => (setBlockAt e i ⟨vl, some { n with parent := v }⟩, tv)
    | _ => (e, tv)

/-- Replaces the content of the block at `id` (a mutation of the node
through a held write guard). -/
def setContent (e : MemoryBlockEngine V) (id : Nat) (n : BPlusTreeNode V) :
    MemoryBlockEngine V :=
  match e.blocks.get? id with
  | some b => setBlockAt e id { b with content := some n }
  | none => e

/-- The node stored at a block id, when the block exists and is written. -/
def nodeAt (e : MemoryBlockEngine V) (id : Nat) : Option (BPlusTreeNode V) :=
  match e.blocks.get? id with
  | some b => b.content
  | none => none

/-- `BPlusTreeNode::new_leaf` (tree.rs lines 38-49). -/
def newLeaf (way : Nat) (parent : Option Nat) : BPlusTreeNode V :=
  ⟨parent, way, true, [], [], none, none, []⟩

/-- `BPlusTreeNode::new_inner` (tree.rs lines 51-62). -/
def newInner (way : Nat) : BPlusTreeNode V :=
  ⟨none, way, false, [], [], none, none, []⟩

/-- `BPlusTree<K, V, E>` with the in-memory engine. -/
structure BPlusTree (V : Type) where
  way : Nat
  engine : MemoryBlockEngine V
  root : Nat
deriving DecidableEq

/-- `BPlusTree::new` (tree.rs lines 72-81): a fresh engine and a leaf root.
Allocation on a fresh engine cannot fail, so the unreachable `unwrap`
branch returns a placeholder. -/
def newTree (way : Nat) : BPlusTree V :=
  match allocWrite (⟨[], 0, []⟩ : MemoryBlockEngine V) (newLeaf way none) with
  | .ok (id, e) => ⟨way, e, id⟩
  | .error _ => ⟨way, ⟨[], 0, []⟩, 0⟩

/-- The child index chosen by `search_helper` at an inner node (tree.rs
lines 104-107): an exact separator match at `pos` routes to child
`pos + 1`, otherwise to the insertion point. -/
def searchChildIdx (keys : List Nat) (key : Nat) : Nat :=
  let pos := unwrapOrIdx (binarySearch keys key)
  if pos < keys.length ∧ key = keys.getD pos 0 then pos + 1 else pos

/-- The child index chosen by `insert_helper` at an inner node (tree.rs
lines 142-145): always the raw `binary_search` position, with no
adjustment on an exact separator match. -/
def insertChildIdx (keys : List Nat) (key : Nat) : Nat :=
  unwrapOrIdx (binarySearch keys key)

/-- `search_helper` (tree.rs lines 87-111). The engine errors hit by
`fetch_read(..).unwrap()` panic rather than returning. -/
def searchHelper (e : MemoryBlockEngine V) (key : Nat) :
    Nat → Nat → Except Failure (Option V)
  | 0, _ => .error .panicked
  | fuel + 1, blockId =>
    match fetchBlock e blockId with
    | .error _ => .error .panicked
    | .ok blk =>
      match blk.content with
      | none => .ok none
      | some node =>
        if node.isLeaf then
          match binarySearch node.keys key with
          | Sum.inl i =>
            match node.values.get? i with
            | some v => .ok (some v)
            | none => .error .panicked
          | Sum.inr _ => .ok none
        else
          match node.pointers.get? (searchChildIdx node.keys key) with
          | some child => searchHelper e key fuel child
          | none => .error .panicked

/-- `BPlusTree::search` (tree.rs lines 83-85). The fuel bound exceeds the
depth of any acyclic block structure. -/
def BPlusTree.search (s : BPlusTree V) (key : Nat) :
    Except Failure (Option V) :=
  searchHelper s.engine key (s.engine.blocks.length + 1) s.root

/-- The leaf branch of `insert_helper` (tree.rs lines 137-140): positional
insertion of the key and value at the binary-search insertion point. -/
def insertIntoLeaf (e : MemoryBlockEngine V) (blockId : Nat)
    (node : BPlusTreeNode V) (key : Nat) (value : V) (tv : Option Nat) :
    Except Failure (MemoryBlockEngine V × Option Nat) :=
  let pos := unwrapOrIdx (binarySearch node.keys key)
  match vecInsert node.keys pos key, vecInsert node.values pos value with
  | some ks, some vs =>
    .ok (setContent e blockId { node with keys := ks, values := vs }, tv)
  | _, _ => .error .panicked

/-- The leaf split of `insert_helper` (tree.rs lines 150-183). The right
half (from index `len / 2` on) moves to a new sibling; the first key of the
right half is promoted by copy into the node named by the cell, creating a
fresh inner node holding one pointer to the splitting block first when the
cell is empty. -/
def splitLeaf (cell : PCell) (blockId : Nat) (e1 : MemoryBlockEngine V)
    (tv1 : Option Nat) (node1 : BPlusTreeNode V) :
    Except Failure (MemoryBlockEngine V × Option Nat) :=
  let leftKeys := node1.keys.take (node1.keys.length / 2)
  let rightKeys := node1.keys.drop (node1.keys.length / 2)
  let leftValues := node1.values.take (node1.values.length / 2)
  let rightValues := node1.values.drop (node1.values.length / 2)
  match rightKeys with
  | [] => .error .panicked
  | mid :: _ =>
    let e2 := setContent e1 blockId
      { node1 with keys := leftKeys, values := leftValues }
    let step : Except Failure (MemoryBlockEngine V × Option Nat) :=
      match cellGet e2 tv1 cell with
      | none =>
        match allocWrite e2 { newInner node1.way with pointers := [blockId] } with
        | .ok (pid, eA) => .ok (cellSet eA tv1 cell (some pid))
        | .error _ => .error .panicked
      | some _ => .ok (e2, tv1)
    match step with
    | .error f => .error f
    | .ok (e3, tv3) =>
      match cellGet e3 tv3 cell with
      | none => .error .panicked
      | some pid =>
        match fetchBlock e3 pid with
        | .error f => .error f
        | .ok pblk =>
          match pblk.content with
          | none => .error .panicked
          | some pnode =>
            let pos := unwrapOrIdx (binarySearch pnode.keys mid)
            match allocWrite e3
              { parent := cellGet e3 tv3 cell, way := node1.way,
                isLeaf := true, keys := rightKeys, values := rightValues,
                prev := some blockId, next := node1.next, pointers := [] } with
            | .error f => .error f
            | .ok (rid, e4) =>
              match vecInsert pnode.keys pos mid,
                    vecInsert pnode.pointers (pos + 1) rid with
              | some pks, some pps =>
                let e5 := setContent e4 pid
                  { pnode with keys := pks, pointers := pps }
                match nodeAt e5 blockId with
                | some nb =>
                  .ok (setContent e5 blockId { nb with next := some rid }, tv3)
                | none => .error .panicked
              | _, _ => .error .panicked

/-- The inner split of `insert_helper` (tree.rs lines 184-213). Note that
line 186 reads `node.keys.len()` again after the keys were already
truncated by `split_off`, so the pointers are split at half the length of
the left key half; and the fresh inner node created when the cell is empty
has no pointer to the splitting block (`new_inner` starts empty). -/
def splitInner (cell : PCell) (blockId : Nat) (e1 : MemoryBlockEngine V)
    (tv1 : Option Nat) (node1 : BPlusTreeNode V) :
    Except Failure (MemoryBlockEngine V × Option Nat) :=
  let leftKeys := node1.keys.take (node1.keys.length / 2)
  let rightKeys0 := node1.keys.drop (node1.keys.length / 2)
  let leftPtrs := node1.pointers.take (leftKeys.length / 2)
  let rightPtrs := node1.pointers.drop (leftKeys.length / 2)
  match rightKeys0 with
  | [] => .error .panicked
  | mid :: rightKeys =>
    let e2 := setContent e1 blockId
      { node1 with keys := leftKeys, pointers := leftPtrs }
    let step : Except Failure (MemoryBlockEngine V × Option Nat) :=
      match cellGet e2 tv1 cell with
      | none =>
        match allocWrite e2 (newInner node1.way) with
        | .ok (pid, eA) => .ok (cellSet eA tv1 cell (some pid))
        | .error _ => .error .panicked
      | some _ => .ok (e2, tv1)
    match step with
    | .error f => .error f
    | .ok (e3, tv3) =>
      match cellGet e3 tv3 cell with
      | none => .error .panicked
      | some pid =>
        match fetchBlock e3 pid with
        | .error f => .error f
        | .ok pblk =>
          match pblk.content with
          | none => .error .panicked
          | some pnode =>
            let pos := unwrapOrIdx (binarySearch pnode.keys mid)
            match allocWrite e3
              { parent := cellGet e3 tv3 cell, way := node1.way,
                isLeaf := false, keys := rightKeys, values := [],
                prev := some blockId, next := node1.next,
                pointers := rightPtrs } with
            | .error f => .error f
            | .ok (rid, e4) =>
              match vecInsert pnode.keys pos mid,
                    vecInsert pnode.pointers (pos + 1) rid with
              | some pks, some pps =>
                .ok (setContent e4 pid
                      { pnode with keys := pks, pointers := pps }, tv3)
              | _, _ => .error .panicked

/-- The unwinding step of `insert_helper` (tree.rs lines 149-214): re-read
the node through the still-held guard and split it when its key count
exceeds its order. -/
def overflowAndSplit (cell : PCell) (blockId : Nat)
    (r : MemoryBlockEngine V × Option Nat) :
    Except Failure (MemoryBlockEngine V × Option Nat) :=
  match nodeAt r.1 blockId with
  | none => .error .panicked
  | some node1 =>
    if node1.way < node1.keys.length then
      if node1.isLeaf then splitLeaf cell blockId r.1 r.2 node1
      else splitInner cell blockId r.1 r.2 node1
    else .ok r

/-- `insert_helper` (tree.rs lines 125-217). The cell passed to the
recursive call is the `parent` field of the current node (line 146), and
the engine error at line 132 panics through `unwrap`. -/
def insertHelper (key : Nat) (value : V) :
    Nat → MemoryBlockEngine V → PCell → Option Nat → Nat →
    Except Failure (MemoryBlockEngine V × Option Nat)
  | 0, _, _, _, _ => .error .panicked
  | fuel + 1, e, cell, tv, blockId =>
    match fetchBlock e blockId with
    | .error _ => .error .panicked
    | .ok blk =>
      match blk.content with
      | none => .ok (e, tv)
      | some node0 =>
        let step1 :=
          if node0.isLeaf then insertIntoLeaf e blockId node0 key value tv
          else
            match node0.pointers.get? (insertChildIdx node0.keys key) with
            | some child =>
              insertHelper key value fuel e (.nodeField blockId) tv child
            | none => .error .panicked
        match step1 with
        | .error f => .error f
        | .ok r => overflowAndSplit cell blockId r

/-- `BPlusTree::insert` (tree.rs lines 113-123): run the helper with a
fresh local cell and adopt the block id it reports, if any, as the new
root after the recursion returns. -/
def BPlusTree.insert (s : BPlusTree V) (key : Nat) (value : V) :
    Except Failure (BPlusTree V) :=
  match insertHelper key value (s.engine.blocks.length + 2) s.engine
        .top none s.root with
  | .error f => .error f
  | .ok (e1, tv) =>
    .ok { s with engine := e1,
                 root := match tv with | some r => r | none => s.root }

/-- `delete_helper` (tree.rs lines 231-259). At an inner node the key must
be an exact separator match or the call returns an empty result without
descending, and an exact match at `pos` descends to child `pos` (not
`pos + 1`). -/
def deleteHelper (key : Nat) :
    Nat → MemoryBlockEngine V → PCell → Option Nat → Nat →
    Except Failure (Option V × MemoryBlockEngine V × Option Nat)
  | 0, _, _, _, _ => .error .panicked
  | fuel + 1, e, cell, tv, blockId =>
    match fetchBlock e blockId with
    | .error _ => .error .panicked
    | .ok blk =>
      match blk.content with
      | none => .ok (none, e, tv)
      | some node =>
        if node.isLeaf then
          match binarySearch node.keys key with
          | Sum.inr _ => .ok (none, e, tv)
          | Sum.inl pos =>
            match vecRemove node.keys pos, vecRemove node.values pos with
            | some (_, ks), some (v, vs) =>
              .ok (some v,
                   setContent e blockId { node with keys := ks, values := vs },
                   tv)
            | _, _ => .error .panicked
        else
          match binarySearch node.keys key with
          | Sum.inr _ => .ok (none, e, tv)
          | Sum.inl pos =>
            match node.pointers.get? pos with
            | some child =>
              deleteHelper key fuel e (.nodeField blockId) tv child
            | none => .error .panicked

/-- `BPlusTree::delete` (tree.rs lines 221-229). -/
def BPlusTree.delete (s : BPlusTree V) (key : Nat) :
    Except Failure (Option V × BPlusTree V) :=
  match deleteHelper key (s.engine.blocks.length + 2) s.engine
        .top none s.root with
  | .error f => .error f
  | .ok (r, e1, tv) =>
    .ok (r, { s with engine := e1,
                     root := match tv with | some x => x | none => s.root })

/-- Runs a sequence of inserts, stopping at the first failure. -/
def insertList (s : BPlusTree V) : List (Nat × V) → Except Failure (BPlusTree V)
  | [] => .ok s
  | (k, v) :: rest =>
    match s.insert k v with
    | .error f => .error f
    | .ok s1 => insertList s1 rest

/-! Utility lemmas about list indexing and the embedded vector ops. -/

theorem get?_some_lt {l : List α} {j : Nat} {b : α} (h : l.get? j = some b) :
    j < l.length := by
  induction l generalizing j with
  | nil => simp [List.get?] at h
  | cons x xs ih =>
    cases j with
    | zero => simp
    | succ j => simpa using ih (by simpa [List.get?] using h)

theorem get?_set_self (l : List α) (i : Nat) (a : α) (h : i < l.length) :
    (l.set i a).get? i = some a := by
  induction l generalizing i with
  | nil => simp at h
  | cons x xs ih =>
    cases i with
    | zero => rfl
    | succ i => simpa [List.set, List.get?] using ih i (by simpa using h)

theorem get?_set_ne (l : List α) (i j : Nat) (a : α) (h : j ≠ i) :
    (l.set i a).get? j = l.get? j := by
  induction l generalizing i j with
  | nil => rfl
  | cons x xs ih =>
    cases i with
    | zero =>
      cases j with
      | zero => exact absurd rfl h
      | succ j => rfl
    | succ i =>
      cases j with
      | zero => rfl
      | succ j => simpa [List.set, List.get?] using ih i j (by omega)

theorem get?_append_lt (l : List α) (x : α) (j : Nat) (h : j < l.length) :
    (l ++ [x]).get? j = l.get? j := by
  induction l generalizing j with
  | nil => simp at h
  | cons y ys ih =>
    cases j with
    | zero => rfl
    | succ j => simpa [List.get?] using ih j (by simpa using h)

theorem get?_append_len (l : List α) (x : α) :
    (l ++ [x]).get? l.length = some x := by
  induction l with
  | nil => rfl
  | cons y ys ih => simpa [List.get?] using ih

theorem set_append_len (l : List α) (x y : α) :
    (l ++ [x]).set l.length y = l ++ [y] := by
  induction l with
  | nil => rfl
  | cons z zs ih => simp [List.set, ih]

theorem vecInsert_le (l : List α) (i : Nat) (a : α) (h : i ≤ l.length) :
    vecInsert l i a = some (l.take i ++ a :: l.drop i) := by
  induction l generalizing i with
  | nil =>
    have hz : i = 0 := by simpa using h
    subst hz
    rfl
  | cons x xs ih =>
    cases i with
    | zero => rfl
    | succ i =>
      have h' : i ≤ xs.length := by simpa using h
      simp only [vecInsert, ih i h', Option.map_some', List.take_succ_cons,
        List.drop_succ_cons, List.cons_append]

theorem length_insert_at (l : List α) (i : Nat) (a : α) (h : i ≤ l.length) :
    (l.take i ++ a :: l.drop i).length = l.length + 1 := by
  simp only [List.length_append, List.length_take, List.length_cons,
    List.length_drop]
  omega

/-! Bounds and the exact-match property of the embedded binary search. -/

theorem bsearchGo_bounds (ks : List Nat) (key : Nat) :
    ∀ fuel left right, left ≤ right →
      (∀ m, bsearchGo ks key left right fuel = Sum.inl m →
        left ≤ m ∧ m < right ∧ ks.getD m 0 = key) ∧
      (∀ i, bsearchGo ks key left right fuel = Sum.inr i →
        left ≤ i ∧ i ≤ right) := by
  intro fuel
  induction fuel with
  | zero =>
    intro left right hlr
    refine ⟨fun m hm => by simp [bsearchGo] at hm, fun i hi => ?_⟩
    simp only [bsearchGo, Sum.inr.injEq] at hi
    omega
  | succ fuel ih =>
    intro left right hlr
    by_cases hcmp : left < right
    · have hmidlt : left + (right - left) / 2 < right := by
        have hd := Nat.div_lt_self (show 0 < right - left by omega)
          (show (1 : Nat) < 2 by norm_num)
        omega
      have hmidge : left ≤ left + (right - left) / 2 := by omega
      constructor
      · intro m hm
        simp only [bsearchGo, if_pos hcmp] at hm
        split at hm
        · have := (ih (left + (right - left) / 2 + 1) right (by omega)).1 m hm
          exact ⟨by omega, this.2.1, this.2.2⟩
        · split at hm
          · have := (ih left (left + (right - left) / 2) hmidge).1 m hm
            exact ⟨this.1, by omega, this.2.2⟩
          · cases hm
            refine ⟨hmidge, hmidlt, ?_⟩
            omega
      · intro i hi
        simp only [bsearchGo, if_pos hcmp] at hi
        split at hi
        · have := (ih (left + (right - left) / 2 + 1) right (by omega)).2 i hi
          omega
        · split at hi
          · have := (ih left (left + (right - left) / 2) hmidge).2 i hi
            omega
          · cases hi
    · refine ⟨fun m hm => ?_, fun i hi => ?_⟩
      · simp [bsearchGo, if_neg hcmp] at hm
      · simp only [bsearchGo, if_neg hcmp, Sum.inr.injEq] at hi
        omega

theorem unwrapOrIdx_le (ks : List Nat) (key : Nat) :
    unwrapOrIdx (binarySearch ks key) ≤ ks.length := by
  have h := bsearchGo_bounds ks key (ks.length + 1) 0 ks.length (by omega)
  cases hbs : binarySearch ks key with
  | inl m =>
    have := h.1 m hbs
    simp only [unwrapOrIdx]
    omega
  | inr i =>
    have := h.2 i hbs
    simp only [unwrapOrIdx]
    omega

theorem binarySearch_inl (ks : List Nat) (key : Nat) (m : Nat)
    (h : binarySearch ks key = Sum.inl m) :
    m < ks.length ∧ ks.getD m 0 = key := by
  have hb := (bsearchGo_bounds ks key (ks.length + 1) 0 ks.length (by omega)).1 m h
  exact ⟨hb.2.1, hb.2.2⟩

/-! Lemmas about the engine primitives. -/

theorem fetchBlock_ok {e : MemoryBlockEngine V} {id : Nat} {b : Block V}
    (h1 : id < e.nextBlockId) (h2 : e.blocks.get? id = some b) :
    fetchBlock e id = .ok b := by
  simp only [fetchBlock, if_neg (by omega : ¬e.nextBlockId ≤ id), h2]

theorem fetchBlock_invalid {e : MemoryBlockEngine V} {id : Nat}
    (h : e.nextBlockId ≤ id) :
    fetchBlock e id = .error .invalidBlockId := by
  simp only [fetchBlock, if_pos h]

theorem setContent_eq {e : MemoryBlockEngine V} {id : Nat} {b : Block V}
    (h : e.blocks.get? id = some b) (n : BPlusTreeNode V) :
    setContent e id n =
      { e with blocks := e.blocks.set id ⟨b.valid, some n⟩ } := by
  simp only [setContent, h, setBlockAt]

theorem setContent_get?_self {e : MemoryBlockEngine V} {id : Nat}
    {b : Block V} (h : e.blocks.get? id = some b) (n : BPlusTreeNode V) :
    (setContent e id n).blocks.get? id = some ⟨b.valid, some n⟩ := by
  rw [setContent_eq h n]
  exact get?_set_self _ _ _ (get?_some_lt h)

theorem setContent_get?_ne (e : MemoryBlockEngine V) (id : Nat)
    (n : BPlusTreeNode V) (j : Nat) (h : j ≠ id) :
    (setContent e id n).blocks.get? j = e.blocks.get? j := by
  unfold setContent
  cases hg : e.blocks.get? id with
  | none => rfl
  | some b => exact get?_set_ne _ _ _ _ h

theorem setContent_nextBlockId (e : MemoryBlockEngine V) (id : Nat)
    (n : BPlusTreeNode V) :
    (setContent e id n).nextBlockId = e.nextBlockId := by
  unfold setContent
  cases e.blocks.get? id <;> rfl

theorem setContent_freeList (e : MemoryBlockEngine V) (id : Nat)
    (n : BPlusTreeNode V) :
    (setContent e id n).freeList = e.freeList := by
  unfold setContent
  cases e.blocks.get? id <;> rfl

theorem setContent_length (e : MemoryBlockEngine V) (id : Nat)
    (n : BPlusTreeNode V) :
    (setContent e id n).blocks.length = e.blocks.length := by
  unfold setContent
  cases e.blocks.get? id with
  | none => rfl
  | some b => simp [setBlockAt]

theorem nodeAt_eq_some {e : MemoryBlockEngine V} {id : Nat} {b : Block V}
    (h : e.blocks.get? id = some b) : nodeAt e id = b.content := by
  simp only [nodeAt, h]

theorem nodeAt_setContent_self {e : MemoryBlockEngine V} {id : Nat}
    {b : Block V} (h : e.blocks.get? id = some b) (n : BPlusTreeNode V) :
    nodeAt (setContent e id n) id = some n := by
  simp only [nodeAt, setContent_get?_self h n]

theorem nodeAt_setContent_ne (e : MemoryBlockEngine V) (id : Nat)
    (n : BPlusTreeNode V) (j : Nat) (h : j ≠ id) :
    nodeAt (setContent e id n) j = nodeAt e j := by
  simp only [nodeAt, setContent_get?_ne e id n j h]

theorem allocWrite_eq (e : MemoryBlockEngine V) (item : BPlusTreeNode V)
    (h1 : e.freeList = []) (h2 : e.nextBlockId = e.blocks.length) :
    allocWrite e item =
      .ok (e.blocks.length,
           ⟨e.blocks ++ [⟨true, some item⟩], e.blocks.length + 1, []⟩) := by
  obtain ⟨bl, nb, fl⟩ := e
  replace h1 : fl = [] := h1
  replace h2 : nb = bl.length := h2
  subst h1 h2
  show allocWrite (⟨bl, bl.length, []⟩ : MemoryBlockEngine V) item =
    .ok (bl.length, ⟨bl ++ [⟨true, some item⟩], bl.length + 1, []⟩)
  have hmark : markValid
      (⟨bl ++ [⟨false, none⟩], bl.length + 1, []⟩ : MemoryBlockEngine V)
      bl.length = .ok ⟨bl ++ [⟨true, none⟩], bl.length + 1, []⟩ := by
    simp only [markValid, get?_append_len, setBlockAt, set_append_len]
  have halloc : allocBlock (⟨bl, bl.length, []⟩ : MemoryBlockEngine V) =
      .ok (bl.length, ⟨bl ++ [⟨true, none⟩], bl.length + 1, []⟩) := by
    simp only [allocBlock, hmark]
  have hfetch : fetchBlock
      (⟨bl ++ [⟨true, none⟩], bl.length + 1, []⟩ : MemoryBlockEngine V)
      bl.length = .ok ⟨true, none⟩ :=
    fetchBlock_ok (show bl.length < bl.length + 1 by omega)
      (get?_append_len bl ⟨true, none⟩)
  simp only [allocWrite, halloc, hfetch, setBlockAt, set_append_len]

theorem getD_mem (l : List α) (n : Nat) (d : α) (h : n < l.length) :
    l.getD n d ∈ l := by
  induction l generalizing n with
  | nil => simp at h
  | cons x xs ih =>
    cases n with
    | zero => simp
    | succ n =>
      simp only [List.getD_cons_succ, List.mem_cons]
      exact Or.inr (ih n (by simpa using h))

/-- C6: For a fresh tree of order 2, inserting keys 1, 2, 3 with values
apple, banana, cherry in ascending order produces a root inner node (block
1) with separator list `[2]`, a left child leaf (block 0) holding key 1
with its value, and a right child leaf (block 2) holding keys 2 and 3 with
their values; afterwards searching 1, 2, 3 returns the three values and
searching 4 returns an empty result. -/
theorem C6_concrete_scenario :
    ∃ s3 : BPlusTree String,
      insertList (newTree 2) [(1, "apple"), (2, "banana"), (3, "cherry")] =
        .ok s3 ∧
      s3.root = 1 ∧
      nodeAt s3.engine 1 = some ⟨none, 2, false, [2], [], none, none, [0, 2]⟩ ∧
      nodeAt s3.engine 0 =
        some ⟨none, 2, true, [1], ["apple"], none, some 2, []⟩ ∧
      nodeAt s3.engine 2 =
        some ⟨some 1, 2, true, [2, 3], ["banana", "cherry"], some 0, none, []⟩ ∧
      s3.search 1 = .ok (some "apple") ∧
      s3.search 2 = .ok (some "banana") ∧
      s3.search 3 = .ok (some "cherry") ∧
      s3.search 4 = .ok none :=
  ⟨_, rfl, rfl, rfl, rfl, rfl, rfl, rfl, rfl, rfl⟩

/-- C1: The claimed insert-then-search round trip fails on the code. With
order 2, the four inserts of the distinct keys 1, 2, 3, 4 (values 10, 20,
30, 40) all succeed and no delete intervenes, yet afterwards searching for
key 3 and for key 4 both return an empty result instead of the inserted
values: the fourth insert misdirects its split promotion (see C3) and
detaches the leaf holding keys 3 and 4 from the root. -/
theorem C1_insert_then_search_lost :
    (insertList (newTree 2 : BPlusTree Nat)
        [(1, 10), (2, 20), (3, 30), (4, 40)]).map
      (fun s => (s.search 3, s.search 4, s.search 1, s.search 2)) =
    .ok (.ok none, .ok none, .ok (some 10), .ok (some 20)) := rfl

/-- C2: Tree-level delete does not use the search routing rule. On the
three-key tree of the concrete scenario, key 3 is present (search finds
value 30) but `delete 3` returns an empty result without descending,
because 3 is not an exact separator match at the root; likewise key 1 is
present but `delete 1` returns an empty result. The claim says delete
removes the matching pair at the leaf and returns the removed value. -/
theorem C2_delete_misses_present_keys :
    (insertList (newTree 2 : BPlusTree Nat) [(1, 10), (2, 20), (3, 30)]).map
      (fun s => (s.search 3, (s.delete 3).map Prod.fst,
                 s.search 1, (s.delete 1).map Prod.fst)) =
    .ok (.ok (some 30), .ok none, .ok (some 10), .ok none) := rfl

/-- C3: The split promotion is not inserted into the parent of the
splitting node. After inserting 1, 2, 3, 4 into an order-2 tree: the root
is still block 1, whose pointer list `[0, 2]` names block 2 as its child;
during the fourth insert the leaf at block 2 split, but the promoted key 3
and the new sibling pointer 4 were inserted into a freshly allocated inner
node (block 3) even though the splitting node had a parent, the root keys
remain `[2]`, no new root was adopted, and block 3 is reachable only
through the root node's clobbered parent field. -/
theorem C3_promotion_not_into_parent :
    (insertList (newTree 2 : BPlusTree Nat)
        [(1, 10), (2, 20), (3, 30), (4, 40)]).map
      (fun s =>
        (s.root,
         (nodeAt s.engine 1).map BPlusTreeNode.keys,
         (nodeAt s.engine 1).map BPlusTreeNode.pointers,
         (nodeAt s.engine 1).map BPlusTreeNode.parent,
         (nodeAt s.engine 3).map BPlusTreeNode.isLeaf,
         (nodeAt s.engine 3).map BPlusTreeNode.keys,
         (nodeAt s.engine 3).map BPlusTreeNode.pointers,
         s.engine.blocks.length)) =
    .ok (1, some [2], some [0, 2], some (some 3), some false, some [3],
         some [2, 4], 5) := rfl

/-- C4 counterexample: the claim states that insert routes an exact
separator match at position `p` to child `p + 1` like search does. At an
inner node with separator list `[2]` and key 2, search routes to child 1
but insert routes to child 0; concretely, on the three-key tree of the
concrete scenario, inserting a duplicate of the separator key 2 lands in
the left leaf (block 0, whose keys become `[1, 2]`) while a subsequent
search for 2 reads the right leaf and still returns the old value 20. -/
theorem C4_exact_match_routes_differ :
    insertChildIdx [2] 2 = 0 ∧ searchChildIdx [2] 2 = 1 ∧
    (insertList (newTree 2 : BPlusTree Nat) [(1, 10), (2, 20), (3, 30)]).map
      (fun s => (s.insert 2 99).map
        (fun s4 => ((nodeAt s4.engine 0).map BPlusTreeNode.keys,
                    s4.search 2))) =
    .ok (.ok (some [1, 2], .ok (some 20))) :=
  ⟨rfl, rfl, rfl⟩

/-- C4 amended: at an inner node, insert always routes to the child at the
raw binary-search position: when the key matches no separator this is the
insertion point and coincides with the child search routes to, but on an
exact separator match at position `p` insert routes to child `p` while
search routes to child `p + 1`. -/
theorem C4_routing_amended (keys : List Nat) (key : Nat) :
    (key ∉ keys → insertChildIdx keys key = searchChildIdx keys key) ∧
    (∀ p, binarySearch keys key = Sum.inl p →
      insertChildIdx keys key = p ∧ searchChildIdx keys key = p + 1) := by
  constructor
  · intro hnot
    unfold insertChildIdx searchChildIdx
    have hcond : ¬(unwrapOrIdx (binarySearch keys key) < keys.length ∧
        key = keys.getD (unwrapOrIdx (binarySearch keys key)) 0) := by
      rintro ⟨hlt, heq⟩
      exact hnot (heq ▸ getD_mem keys _ 0 hlt)
    rw [if_neg hcond]
  · intro p hp
    obtain ⟨hlt, heq⟩ := binarySearch_inl keys key p hp
    unfold insertChildIdx searchChildIdx
    rw [hp]
    exact ⟨rfl, if_pos ⟨hlt, heq.symm⟩⟩

theorem C4_routing_amended_witness :
    insertChildIdx [5] 3 = searchChildIdx [5] 3 ∧ searchChildIdx [7] 7 = 0 + 1 :=
  ⟨(C4_routing_amended [5] 3).1 (by decide),
   ((C4_routing_amended [7] 7).2 0 rfl).2⟩

/-- A fresh tree of order 2 whose root block (id 0) was freed directly
through the engine; the id remains below the allocation bound. -/
def freedRootTree : BPlusTree Nat :=
  { (newTree 2 : BPlusTree Nat) with
    engine := (engineDelete (newTree 2 : BPlusTree Nat).engine 0).2 }

/-- C7 counterexample: a tree operation on a tree whose root block id has
been freed through the engine does not report a failure, contrary to the
claim: search returns an ok empty result, insert returns success leaving
the state unchanged, and delete returns an ok empty result, because the
engine range check does not consult the free list and the helpers treat a
block with empty content as a normal case. -/
theorem C7_freed_root_succeeds :
    freedRootTree.search 1 = .ok none ∧
    freedRootTree.insert 1 10 = .ok freedRootTree ∧
    (freedRootTree.delete 1).map Prod.fst = .ok none :=
  ⟨rfl, rfl, rfl⟩

/-- C7 amended: an engine failure at the entry of a tree operation is
never silently recovered: when the root id is at or beyond the engine
allocation bound, the fetch fails and search, insert and delete all abort
with a panicked outcome (the helpers unwrap the engine error), rather than
succeeding; but a freed root id still below the bound is not an engine
failure at all and yields benign empty results (see the counterexample). -/
theorem C7_engine_failure_aborts (s : BPlusTree V) (key : Nat) (v : V)
    (h : s.engine.nextBlockId ≤ s.root) :
    s.search key = .error .panicked ∧
    s.insert key v = .error .panicked ∧
    s.delete key = .error .panicked := by
  have hf := fetchBlock_invalid h
  refine ⟨?_, ?_, ?_⟩
  · unfold BPlusTree.search
    simp only [searchHelper, hf]
  · unfold BPlusTree.insert
    rw [show s.engine.blocks.length + 2 = s.engine.blocks.length + 1 + 1 from rfl]
    simp only [insertHelper, hf]
  · unfold BPlusTree.delete
    rw [show s.engine.blocks.length + 2 = s.engine.blocks.length + 1 + 1 from rfl]
    simp only [deleteHelper, hf]

theorem C7_engine_failure_aborts_witness :
    (⟨2, ⟨[], 0, []⟩, 0⟩ : BPlusTree Nat).search 1 = .error .panicked ∧
    (⟨2, ⟨[], 0, []⟩, 0⟩ : BPlusTree Nat).insert 1 10 = .error .panicked ∧
    (⟨2, ⟨[], 0, []⟩, 0⟩ : BPlusTree Nat).delete 1 = .error .panicked :=
  C7_engine_failure_aborts ⟨2, ⟨[], 0, []⟩, 0⟩ 1 10 (by decide)

/-- C8: In-memory engine delete. For an id below the allocation bound and
not in the free list, delete succeeds, returns the last-written content of
the block, empties the block and pushes the id onto the free list; for an
id at or beyond the bound, or an id already in the free list (a double
free), delete fails with the invalid-block-id error and leaves the engine
state unchanged. -/
theorem C8_engine_delete_spec (e : MemoryBlockEngine V) (id : Nat) :
    (∀ b, id < e.nextBlockId → id ∉ e.freeList → e.blocks.get? id = some b →
      engineDelete e id =
        (.ok b.content,
         ⟨e.blocks.set id ⟨b.valid, none⟩, e.nextBlockId, id :: e.freeList⟩)) ∧
    (e.nextBlockId ≤ id ∨ id ∈ e.freeList →
      engineDelete e id = (.error .invalidBlockId, e)) := by
  constructor
  · intro b h1 h2 hg
    have hcond : ¬(e.nextBlockId ≤ id ∨ id ∈ e.freeList) := by
      rintro (hc | hc)
      · omega
      · exact h2 hc
    simp only [engineDelete, if_neg hcond, hg]
  · intro h
    simp only [engineDelete, if_pos h]

theorem C8_engine_delete_spec_witness :
    engineDelete (⟨[⟨true, some (newLeaf 2 none)⟩], 1, []⟩ :
        MemoryBlockEngine Nat) 0 =
      (.ok (some (newLeaf 2 none)), ⟨[⟨true, none⟩], 1, [0]⟩) ∧
    engineDelete (⟨[⟨true, none⟩], 1, [0]⟩ : MemoryBlockEngine Nat) 0 =
      (.error .invalidBlockId, ⟨[⟨true, none⟩], 1, [0]⟩) :=
  ⟨(C8_engine_delete_spec ⟨[⟨true, some (newLeaf 2 none)⟩], 1, []⟩ 0).1
      ⟨true, some (newLeaf 2 none)⟩ (by decide) (by decide) rfl,
   (C8_engine_delete_spec ⟨[⟨true, none⟩], 1, [0]⟩ 0).2 (Or.inr (by decide))⟩

/-- C10: When the block a tree operation reaches exists (its id is below
the allocation bound) but has empty content — as after the block is freed
directly through the engine while its id stays in range — the operation
reports no error: the search helper returns an ok empty result, the insert
helper returns success leaving the engine and the cell untouched, and the
delete helper returns an ok empty result. -/
theorem C10_empty_content_is_benign (e : MemoryBlockEngine V)
    (fuel id key : Nat) (v : V) (cell : PCell) (tv : Option Nat)
    (blk : Block V) (h1 : id < e.nextBlockId)
    (h2 : e.blocks.get? id = some blk) (h3 : blk.content = none) :
    searchHelper e key (fuel + 1) id = .ok none ∧
    insertHelper key v (fuel + 1) e cell tv id = .ok (e, tv) ∧
    deleteHelper key (fuel + 1) e cell tv id = .ok (none, e, tv) := by
  have hf := fetchBlock_ok h1 h2
  refine ⟨?_, ?_, ?_⟩ <;> simp only [searchHelper, insertHelper, deleteHelper, hf, h3]

theorem C10_empty_content_is_benign_witness :
    searchHelper (⟨[⟨true, none⟩], 1, []⟩ : MemoryBlockEngine Nat) 5 1 0 =
      .ok none ∧
    insertHelper 5 55 1 (⟨[⟨true, none⟩], 1, []⟩ : MemoryBlockEngine Nat)
      .top none 0 = .ok (⟨[⟨true, none⟩], 1, []⟩, none) ∧
    deleteHelper 5 1 (⟨[⟨true, none⟩], 1, []⟩ : MemoryBlockEngine Nat)
      .top none 0 = .ok (none, ⟨[⟨true, none⟩], 1, []⟩, none) :=
  C10_empty_content_is_benign ⟨[⟨true, none⟩], 1, []⟩ 0 0 5 55 .top none
    ⟨true, none⟩ (by decide) rfl rfl

/-- Frame property of the delete helper: it reports the cell value it was
handed, never allocates or frees engine blocks, and modifies at most the
single block from which it removed a key/value pair. -/
theorem deleteHelper_frame :
    ∀ (fuel : Nat) (e : MemoryBlockEngine V) (cell : PCell) (tv : Option Nat)
      (id key : Nat) (r : Option V) (e1 : MemoryBlockEngine V)
      (tv1 : Option Nat),
      deleteHelper key fuel e cell tv id = .ok (r, e1, tv1) →
      tv1 = tv ∧ e1.nextBlockId = e.nextBlockId ∧
      e1.freeList = e.freeList ∧ e1.blocks.length = e.blocks.length ∧
      ∃ i, ∀ j, j ≠ i → e1.blocks.get? j = e.blocks.get? j := by
  intro fuel
  induction fuel with
  | zero =>
    intro e cell tv id key r e1 tv1 h
    simp [deleteHelper] at h
  | succ fuel ih =>
    intro e cell tv id key r e1 tv1 h
    simp only [deleteHelper] at h
    split at h
    · exact absurd h (by simp)
    · -- fetch succeeded; split on the stored content
      split at h
      · -- empty content: nothing happens
        simp only [Except.ok.injEq, Prod.mk.injEq] at h
        obtain ⟨hr, he, htv⟩ := h
        subst he htv
        exact ⟨rfl, rfl, rfl, rfl, 0, fun j _ => rfl⟩
      · -- a node is present
        rename_i blk hfb node hc
        split at h
        · -- leaf branch
          split at h
          · -- key absent from the leaf
            simp only [Except.ok.injEq, Prod.mk.injEq] at h
            obtain ⟨hr, he, htv⟩ := h
            subst he htv
            exact ⟨rfl, rfl, rfl, rfl, 0, fun j _ => rfl⟩
          · -- key found: one block is rewritten
            split at h
            · simp only [Except.ok.injEq, Prod.mk.injEq] at h
              obtain ⟨hr, he, htv⟩ := h
              subst he htv
              refine ⟨rfl, (setContent_nextBlockId e id _).symm ▸ rfl, ?_, ?_, id, ?_⟩
              · rw [setContent_freeList]
              · rw [setContent_length]
              · intro j hj
                exact setContent_get?_ne e id _ j hj
            · exact absurd h (by simp)
        · -- inner branch
          split at h
          · -- key is not an exact separator match: return without descending
            simp only [Except.ok.injEq, Prod.mk.injEq] at h
            obtain ⟨hr, he, htv⟩ := h
            subst he htv
            exact ⟨rfl, rfl, rfl, rfl, 0, fun j _ => rfl⟩
          · -- exact match: recurse into the child
            split at h
            · exact ih e (.nodeField id) tv _ key r e1 tv1 h
            · exact absurd h (by simp)

/-- C9: Tree-level delete never changes the root block identity, never
allocates an engine block and never frees one: whenever delete returns
successfully, the order, the root field, the allocation bound, the free
list and the number of engine blocks are unchanged, and at most one block
(the leaf from which the pair was removed) has different content. -/
theorem C9_delete_frame (s : BPlusTree V) (key : Nat) (r : Option V)
    (s1 : BPlusTree V) (h : s.delete key = .ok (r, s1)) :
    s1.way = s.way ∧ s1.root = s.root ∧
    s1.engine.nextBlockId = s.engine.nextBlockId ∧
    s1.engine.freeList = s.engine.freeList ∧
    s1.engine.blocks.length = s.engine.blocks.length ∧
    ∃ i, ∀ j, j ≠ i → s1.engine.blocks.get? j = s.engine.blocks.get? j := by
  unfold BPlusTree.delete at h
  cases hd : deleteHelper key (s.engine.blocks.length + 2) s.engine
      .top none s.root with
  | error f => rw [hd] at h; simp at h
  | ok t =>
    obtain ⟨r0, e1, tv1⟩ := t
    rw [hd] at h
    obtain ⟨htv, hnext, hfree, hlen, i, hget⟩ :=
      deleteHelper_frame (s.engine.blocks.length + 2) s.engine .top none
        s.root key r0 e1 tv1 hd
    subst htv
    simp only [Except.ok.injEq, Prod.mk.injEq] at h
    obtain ⟨hr, hs1⟩ := h
    subst hs1
    exact ⟨rfl, rfl, hnext, hfree, hlen, i, hget⟩

/-- The one-key tree reached by inserting the pair (1, 10) into a fresh
order-2 tree; used only to instantiate the delete frame theorem. -/
def oneKeyTree : BPlusTree Nat :=
  ⟨2, ⟨[⟨true, some ⟨none, 2, true, [1], [10], none, none, []⟩⟩], 1, []⟩, 0⟩

/-- The state after deleting key 1 from `oneKeyTree`. -/
def oneKeyTreeAfter : BPlusTree Nat :=
  ⟨2, ⟨[⟨true, some ⟨none, 2, true, [], [], none, none, []⟩⟩], 1, []⟩, 0⟩

theorem C9_delete_frame_witness :
    oneKeyTreeAfter.way = oneKeyTree.way ∧
    oneKeyTreeAfter.root = oneKeyTree.root ∧
    oneKeyTreeAfter.engine.nextBlockId = oneKeyTree.engine.nextBlockId ∧
    oneKeyTreeAfter.engine.freeList = oneKeyTree.engine.freeList ∧
    oneKeyTreeAfter.engine.blocks.length = oneKeyTree.engine.blocks.length ∧
    ∃ i, ∀ j, j ≠ i →
      oneKeyTreeAfter.engine.blocks.get? j = oneKeyTree.engine.blocks.get? j :=
  C9_delete_frame oneKeyTree 1 (some 10) oneKeyTreeAfter rfl

/-! Reachability by insert operations, and the inner-node pointer invariant. -/

theorem nodeAt_some {e : MemoryBlockEngine V} {id : Nat}
    {n : BPlusTreeNode V} (h : nodeAt e id = some n) :
    ∃ b, e.blocks.get? id = some b ∧ b.content = some n := by
  unfold nodeAt at h
  cases hg : e.blocks.get? id with
  | none => rw [hg] at h; cases h
  | some b => rw [hg] at h; exact ⟨b, rfl, h⟩

/-- The spec invariant for inner nodes: one more pointer than keys. -/
def InnerOk (n : BPlusTreeNode V) : Prop :=
  n.isLeaf = false → n.pointers.length = n.keys.length + 1

/-- The parallel-array invariant for leaves. -/
def LeafOk (n : BPlusTreeNode V) : Prop :=
  n.isLeaf = true → n.values.length = n.keys.length

/-- Engine-wide facts preserved by insert: nothing is ever freed, the
allocation counter tracks the store, every allocated block holds a node,
and every stored node satisfies the per-node invariants. -/
def EngineInv (e : MemoryBlockEngine V) : Prop :=
  e.freeList = [] ∧ e.nextBlockId = e.blocks.length ∧
  ∀ i b, e.blocks.get? i = some b →
    ∃ n, b.content = some n ∧ InnerOk n ∧ LeafOk n

def IsLeafAt (e : MemoryBlockEngine V) (i : Nat) : Prop :=
  ∃ n, nodeAt e i = some n ∧ n.isLeaf = true

def IsInnerAt (e : MemoryBlockEngine V) (i : Nat) : Prop :=
  ∃ n, nodeAt e i = some n ∧ n.isLeaf = false

/-- Shape of the root in every insert-reachable state: either a leaf, or
an inner node with exactly one separator and two leaf children, whose
parent field is empty or names a detached inner node distinct from the
root (the node that absorbs all later split promotions, see C3). -/
def RootShape (s : BPlusTree V) : Prop :=
  ∃ rn, nodeAt s.engine s.root = some rn ∧
    (rn.isLeaf = true ∨
     (rn.isLeaf = false ∧ (∃ k0, rn.keys = [k0]) ∧
      (∃ a b, rn.pointers = [a, b] ∧
        IsLeafAt s.engine a ∧ IsLeafAt s.engine b) ∧
      (rn.parent = none ∨
       ∃ p, rn.parent = some p ∧ p ≠ s.root ∧ IsInnerAt s.engine p)))

def Inv (s : BPlusTree V) : Prop := EngineInv s.engine ∧ RootShape s

/-- Tree states reachable from a fresh tree by successful inserts. -/
inductive Reach (V : Type) (w : Nat) : BPlusTree V → Prop where
  | base : Reach V w (newTree w)
  | step {s s1 : BPlusTree V} (k : Nat) (v : V) :
      Reach V w s → s.insert k v = .ok s1 → Reach V w s1

theorem inv_base (V : Type) (w : Nat) : Inv (newTree w : BPlusTree V) := by
  have hnew : (newTree w : BPlusTree V) =
      ⟨w, ⟨[⟨true, some (newLeaf w none)⟩], 1, []⟩, 0⟩ := rfl
  rw [hnew]
  refine ⟨⟨rfl, rfl, ?_⟩, ?_⟩
  · intro i b hb
    have hi : i < 1 := by simpa using get?_some_lt hb
    have hz : i = 0 := by omega
    subst hz
    cases hb
    refine ⟨newLeaf w none, rfl, ?_, ?_⟩
    · intro hfalse
      exact nomatch hfalse
    · intro _
      rfl
  · exact ⟨newLeaf w none, rfl, Or.inl rfl⟩

/-- One step of the insert helper at a block holding a leaf node: the key
and value are inserted positionally and the unwind continues with the
overflow check on the updated block. -/
theorem insertHelper_leaf_step (key : Nat) (v : V) (fuel : Nat)
    (e : MemoryBlockEngine V) (cell : PCell) (tv : Option Nat) (c : Nat)
    (vlc : Bool) (nc : BPlusTreeNode V)
    (hnext : e.nextBlockId = e.blocks.length)
    (hgc : e.blocks.get? c = some ⟨vlc, some nc⟩)
    (hleaf : nc.isLeaf = true)
    (hvk : nc.values.length = nc.keys.length) :
    ∃ ks vs,
      ks.length = nc.keys.length + 1 ∧ vs.length = nc.keys.length + 1 ∧
      insertHelper key v (fuel + 1) e cell tv c =
        overflowAndSplit cell c
          (setContent e c { nc with keys := ks, values := vs }, tv) := by
  have hlt : c < e.nextBlockId := by rw [hnext]; exact get?_some_lt hgc
  have hfb := fetchBlock_ok hlt hgc
  have hpos := unwrapOrIdx_le nc.keys key
  have hposv : unwrapOrIdx (binarySearch nc.keys key) ≤ nc.values.length := by
    omega
  refine ⟨nc.keys.take (unwrapOrIdx (binarySearch nc.keys key)) ++
            key :: nc.keys.drop (unwrapOrIdx (binarySearch nc.keys key)),
          nc.values.take (unwrapOrIdx (binarySearch nc.keys key)) ++
            v :: nc.values.drop (unwrapOrIdx (binarySearch nc.keys key)),
          length_insert_at _ _ key hpos, ?_, ?_⟩
  · rw [length_insert_at _ _ v hposv, hvk]
  · simp only [insertHelper, hfb]
    rw [if_pos hleaf]
    simp only [insertIntoLeaf, vecInsert_le _ _ key hpos,
      vecInsert_le _ _ v hposv]

/-- The unwind step does nothing when the node does not exceed its order. -/
theorem overflowAndSplit_no (cell : PCell) (c : Nat)
    (e1 : MemoryBlockEngine V) (tv1 : Option Nat) (node1 : BPlusTreeNode V)
    (h : nodeAt e1 c = some node1) (hle : node1.keys.length ≤ node1.way) :
    overflowAndSplit cell c (e1, tv1) = .ok (e1, tv1) := by
  simp only [overflowAndSplit, h]
  rw [if_neg (by omega)]

/-- The unwind step dispatches to the leaf split on an overfull leaf. -/
theorem overflowAndSplit_leaf (cell : PCell) (c : Nat)
    (e1 : MemoryBlockEngine V) (tv1 : Option Nat) (node1 : BPlusTreeNode V)
    (h : nodeAt e1 c = some node1) (hgt : node1.way < node1.keys.length)
    (hleaf : node1.isLeaf = true) :
    overflowAndSplit cell c (e1, tv1) = splitLeaf cell c e1 tv1 node1 := by
  simp only [overflowAndSplit, h]
  rw [if_pos hgt, if_pos hleaf]

/-- The unwind step dispatches to the inner split on an overfull inner
node. -/
theorem overflowAndSplit_inner (cell : PCell) (c : Nat)
    (e1 : MemoryBlockEngine V) (tv1 : Option Nat) (node1 : BPlusTreeNode V)
    (h : nodeAt e1 c = some node1) (hgt : node1.way < node1.keys.length)
    (hleaf : node1.isLeaf = false) :
    overflowAndSplit cell c (e1, tv1) = splitInner cell c e1 tv1 node1 := by
  simp only [overflowAndSplit, h]
  rw [if_pos hgt, if_neg (by rw [hleaf]; exact fun hcon => nomatch hcon)]

theorem get?_none_of_le (l : List α) (j : Nat) (h : l.length ≤ j) :
    l.get? j = none := by
  induction l generalizing j with
  | nil => rfl
  | cons x xs ih =>
    cases j with
    | zero => simp at h
    | succ j => simpa [List.get?] using ih j (by simpa using h)

/-- Running the leaf split with the top-level cell, which is empty: a new
inner root is created over the splitting block, the promoted key and the
new sibling pointer land in it, and the new root id is reported upward. -/
theorem splitLeaf_top_run (bl : List (Block V)) (c : Nat)
    (node1 : BPlusTreeNode V) (vlc : Bool) (mid : Nat) (rest : List Nat)
    (hgc : bl.get? c = some ⟨vlc, some node1⟩)
    (hdk : node1.keys.drop (node1.keys.length / 2) = mid :: rest)
    (n : Nat) (hn : n = bl.length) :
    splitLeaf .top c (⟨bl, n, []⟩ : MemoryBlockEngine V) none node1 =
      .ok
        (⟨((bl.set c
              ⟨vlc, some { node1 with
                keys := node1.keys.take (node1.keys.length / 2),
                values := node1.values.take (node1.values.length / 2) }⟩ ++
            [⟨true, some ⟨none, node1.way, false, [], [], none, none, [c]⟩⟩] ++
            [⟨true, some ⟨some bl.length, node1.way, true, mid :: rest,
              node1.values.drop (node1.values.length / 2), some c,
              node1.next, []⟩⟩] : List (Block V)).set bl.length
            ⟨true, some ⟨none, node1.way, false, [mid], [], none, none,
              [c, bl.length + 1]⟩⟩).set c
            ⟨vlc, some { node1 with
              keys := node1.keys.take (node1.keys.length / 2),
              values := node1.values.take (node1.values.length / 2),
              next := some (bl.length + 1) }⟩,
         bl.length + 2, []⟩,
       some bl.length) := by
  subst hn
  have hc_lt : c < bl.length := get?_some_lt hgc
  have h_e2 : setContent (⟨bl, bl.length, []⟩ : MemoryBlockEngine V) c
      { node1 with
        keys := node1.keys.take (node1.keys.length / 2),
        values := node1.values.take (node1.values.length / 2) } =
      ⟨bl.set c ⟨vlc, some { node1 with
        keys := node1.keys.take (node1.keys.length / 2),
        values := node1.values.take (node1.values.length / 2) }⟩,
       bl.length, []⟩ := by
    rw [setContent_eq hgc]
  have h_allocA : allocWrite
      (⟨bl.set c ⟨vlc, some { node1 with
          keys := node1.keys.take (node1.keys.length / 2),
          values := node1.values.take (node1.values.length / 2) }⟩,
        bl.length, []⟩ : MemoryBlockEngine V)
      ⟨none, node1.way, false, [], [], none, none, [c]⟩ =
      .ok (bl.length,
        ⟨bl.set c ⟨vlc, some { node1 with
            keys := node1.keys.take (node1.keys.length / 2),
            values := node1.values.take (node1.values.length / 2) }⟩ ++
          [⟨true, some ⟨none, node1.way, false, [], [], none, none, [c]⟩⟩],
         bl.length + 1, []⟩) := by
    have h := allocWrite_eq
      (⟨bl.set c ⟨vlc, some { node1 with
          keys := node1.keys.take (node1.keys.length / 2),
          values := node1.values.take (node1.values.length / 2) }⟩,
        bl.length, []⟩ : MemoryBlockEngine V)
      ⟨none, node1.way, false, [], [], none, none, [c]⟩ rfl (by simp)
    simpa using h
  have h_fetchA : fetchBlock
      (⟨bl.set c ⟨vlc, some { node1 with
          keys := node1.keys.take (node1.keys.length / 2),
          values := node1.values.take (node1.values.length / 2) }⟩ ++
        [⟨true, some ⟨none, node1.way, false, [], [], none, none, [c]⟩⟩],
       bl.length + 1, []⟩ : MemoryBlockEngine V) bl.length =
      .ok ⟨true, some ⟨none, node1.way, false, [], [], none, none, [c]⟩⟩ := by
    have h_gA : ((bl.set c ⟨vlc, some { node1 with
          keys := node1.keys.take (node1.keys.length / 2),
          values := node1.values.take (node1.values.length / 2) }⟩ ++
        [⟨true, some ⟨none, node1.way, false, [], [], none, none, [c]⟩⟩]) :
          List (Block V)).get? bl.length =
        some ⟨true, some ⟨none, node1.way, false, [], [], none, none, [c]⟩⟩ := by
      rw [show bl.length =
        (bl.set c ⟨vlc, some { node1 with
            keys := node1.keys.take (node1.keys.length / 2),
            values := node1.values.take (node1.values.length / 2) }⟩).length
        from (List.length_set bl c _).symm]
      exact get?_append_len _ _
    exact fetchBlock_ok (show bl.length < bl.length + 1 by omega) h_gA
  have h_allocSib : allocWrite
      (⟨bl.set c ⟨vlc, some { node1 with
          keys := node1.keys.take (node1.keys.length / 2),
          values := node1.values.take (node1.values.length / 2) }⟩ ++
        [⟨true, some ⟨none, node1.way, false, [], [], none, none, [c]⟩⟩],
       bl.length + 1, []⟩ : MemoryBlockEngine V)
      ⟨some bl.length, node1.way, true, mid :: rest,
        node1.values.drop (node1.values.length / 2), some c,
        node1.next, []⟩ =
      .ok (bl.length + 1,
        ⟨bl.set c ⟨vlc, some { node1 with
            keys := node1.keys.take (node1.keys.length / 2),
            values := node1.values.take (node1.values.length / 2) }⟩ ++
          [⟨true, some ⟨none, node1.way, false, [], [], none, none, [c]⟩⟩] ++
          [⟨true, some ⟨some bl.length, node1.way, true, mid :: rest,
            node1.values.drop (node1.values.length / 2), some c,
            node1.next, []⟩⟩],
         bl.length + 2, []⟩) := by
    have h := allocWrite_eq
      (⟨bl.set c ⟨vlc, some { node1 with
          keys := node1.keys.take (node1.keys.length / 2),
          values := node1.values.take (node1.values.length / 2) }⟩ ++
        [⟨true, some ⟨none, node1.way, false, [], [], none, none, [c]⟩⟩],
       bl.length + 1, []⟩ : MemoryBlockEngine V)
      ⟨some bl.length, node1.way, true, mid :: rest,
        node1.values.drop (node1.values.length / 2), some c,
        node1.next, []⟩ rfl (by simp)
    simpa using h
  have h_g4pid : ((bl.set c ⟨vlc, some { node1 with
          keys := node1.keys.take (node1.keys.length / 2),
          values := node1.values.take (node1.values.length / 2) }⟩ ++
        [⟨true, some ⟨none, node1.way, false, [], [], none, none, [c]⟩⟩] ++
        [⟨true, some ⟨some bl.length, node1.way, true, mid :: rest,
          node1.values.drop (node1.values.length / 2), some c,
          node1.next, []⟩⟩]) : List (Block V)).get? bl.length =
      some ⟨true, some ⟨none, node1.way, false, [], [], none, none, [c]⟩⟩ := by
    rw [get?_append_lt _ _ _ (by simp)]
    rw [show bl.length =
      (bl.set c ⟨vlc, some { node1 with
          keys := node1.keys.take (node1.keys.length / 2),
          values := node1.values.take (node1.values.length / 2) }⟩).length
      from (List.length_set bl c _).symm]
    exact get?_append_len _ _
  have h_e5 : setContent
      (⟨bl.set c ⟨vlc, some { node1 with
          keys := node1.keys.take (node1.keys.length / 2),
          values := node1.values.take (node1.values.length / 2) }⟩ ++
        [⟨true, some ⟨none, node1.way, false, [], [], none, none, [c]⟩⟩] ++
        [⟨true, some ⟨some bl.length, node1.way, true, mid :: rest,
          node1.values.drop (node1.values.length / 2), some c,
          node1.next, []⟩⟩],
       bl.length + 2, []⟩ : MemoryBlockEngine V) bl.length
      ⟨none, node1.way, false, [mid], [], none, none, [c, bl.length + 1]⟩ =
      ⟨(bl.set c ⟨vlc, some { node1 with
          keys := node1.keys.take (node1.keys.length / 2),
          values := node1.values.take (node1.values.length / 2) }⟩ ++
        [⟨true, some ⟨none, node1.way, false, [], [], none, none, [c]⟩⟩] ++
        [⟨true, some ⟨some bl.length, node1.way, true, mid :: rest,
          node1.values.drop (node1.values.length / 2), some c,
          node1.next, []⟩⟩] : List (Block V)).set bl.length
        ⟨true, some ⟨none, node1.way, false, [mid], [], none, none,
          [c, bl.length + 1]⟩⟩,
       bl.length + 2, []⟩ := by
    rw [setContent_eq h_g4pid]
  have h_g5c : ((bl.set c ⟨vlc, some { node1 with
          keys := node1.keys.take (node1.keys.length / 2),
          values := node1.values.take (node1.values.length / 2) }⟩ ++
        [⟨true, some ⟨none, node1.way, false, [], [], none, none, [c]⟩⟩] ++
        [⟨true, some ⟨some bl.length, node1.way, true, mid :: rest,
          node1.values.drop (node1.values.length / 2), some c,
          node1.next, []⟩⟩] : List (Block V)).set bl.length
        ⟨true, some ⟨none, node1.way, false, [mid], [], none, none,
          [c, bl.length + 1]⟩⟩ : List (Block V)).get? c =
      some ⟨vlc, some { node1 with
        keys := node1.keys.take (node1.keys.length / 2),
        values := node1.values.take (node1.values.length / 2) }⟩ := by
    rw [get?_set_ne _ _ _ _ (by omega)]
    rw [get?_append_lt _ _ _ (by simp; omega)]
    rw [get?_append_lt _ _ _ (by simp [hc_lt])]
    exact get?_set_self _ _ _ hc_lt
  have h_nodeAt5c : nodeAt
      (⟨(bl.set c ⟨vlc, some { node1 with
          keys := node1.keys.take (node1.keys.length / 2),
          values := node1.values.take (node1.values.length / 2) }⟩ ++
        [⟨true, some ⟨none, node1.way, false, [], [], none, none, [c]⟩⟩] ++
        [⟨true, some ⟨some bl.length, node1.way, true, mid :: rest,
          node1.values.drop (node1.values.length / 2), some c,
          node1.next, []⟩⟩] : List (Block V)).set bl.length
        ⟨true, some ⟨none, node1.way, false, [mid], [], none, none,
          [c, bl.length + 1]⟩⟩,
       bl.length + 2, []⟩ : MemoryBlockEngine V) c =
      some { node1 with
        keys := node1.keys.take (node1.keys.length / 2),
        values := node1.values.take (node1.values.length / 2) } := by
    unfold nodeAt
    rw [h_g5c]
  have h_e6 : setContent
      (⟨(bl.set c ⟨vlc, some { node1 with
          keys := node1.keys.take (node1.keys.length / 2),
          values := node1.values.take (node1.values.length / 2) }⟩ ++
        [⟨true, some ⟨none, node1.way, false, [], [], none, none, [c]⟩⟩] ++
        [⟨true, some ⟨some bl.length, node1.way, true, mid :: rest,
          node1.values.drop (node1.values.length / 2), some c,
          node1.next, []⟩⟩] : List (Block V)).set bl.length
        ⟨true, some ⟨none, node1.way, false, [mid], [], none, none,
          [c, bl.length + 1]⟩⟩,
       bl.length + 2, []⟩ : MemoryBlockEngine V) c
      { node1 with
        keys := node1.keys.take (node1.keys.length / 2),
        values := node1.values.take (node1.values.length / 2),
        next := some (bl.length + 1) } =
      ⟨((bl.set c ⟨vlc, some { node1 with
          keys := node1.keys.take (node1.keys.length / 2),
          values := node1.values.take (node1.values.length / 2) }⟩ ++
        [⟨true, some ⟨none, node1.way, false, [], [], none, none, [c]⟩⟩] ++
        [⟨true, some ⟨some bl.length, node1.way, true, mid :: rest,
          node1.values.drop (node1.values.length / 2), some c,
          node1.next, []⟩⟩] : List (Block V)).set bl.length
        ⟨true, some ⟨none, node1.way, false, [mid], [], none, none,
          [c, bl.length + 1]⟩⟩).set c
        ⟨vlc, some { node1 with
          keys := node1.keys.take (node1.keys.length / 2),
          values := node1.values.take (node1.values.length / 2),
          next := some (bl.length + 1) }⟩,
       bl.length + 2, []⟩ := by
    rw [setContent_eq h_g5c]
  simp only [splitLeaf, hdk, h_e2, cellGet, newInner, h_allocA, cellSet,
    h_fetchA, h_allocSib,
    show binarySearch ([] : List Nat) mid = Sum.inr 0 from rfl,
    unwrapOrIdx, vecInsert, Option.map_some', h_e5, h_nodeAt5c, h_e6]

/-- Running the leaf split when the cell is the parent field of the node
at block `r` and that field is empty: a fresh detached inner node is
created over the splitting block `c` (even though `c` has the parent `r`),
the parent field of `r` is clobbered with the fresh id, the promoted key
and sibling pointer land in the fresh node, and no new root is reported. -/
theorem splitLeaf_nodeField_none_run (bl : List (Block V)) (c r : Nat)
    (node1 rn : BPlusTreeNode V) (vlc vlr : Bool) (mid : Nat)
    (rest : List Nat)
    (hgc : bl.get? c = some ⟨vlc, some node1⟩)
    (hgr : bl.get? r = some ⟨vlr, some rn⟩)
    (hrc : r ≠ c)
    (hrp : rn.parent = none)
    (hdk : node1.keys.drop (node1.keys.length / 2) = mid :: rest)
    (n : Nat) (hn : n = bl.length) :
    splitLeaf (.nodeField r) c (⟨bl, n, []⟩ : MemoryBlockEngine V)
        none node1 =
      .ok (⟨(((((bl.set c ⟨vlc, some { node1 with
        keys := node1.keys.take (node1.keys.length / 2),
        values := node1.values.take (node1.values.length / 2) }⟩ ++
      [⟨true, some ⟨none, node1.way, false, [], [], none, none, [c]⟩⟩] : List (Block V)).set r ⟨vlr, some { rn with parent := some bl.length }⟩ : List (Block V)) ++ [⟨true, some ⟨some bl.length, node1.way, true, mid :: rest,
        node1.values.drop (node1.values.length / 2), some c, node1.next, []⟩⟩] : List (Block V)).set bl.length ⟨true, some ⟨none, node1.way, false, [mid], [], none, none, [c, bl.length + 1]⟩⟩ : List (Block V)).set c ⟨vlc, some { node1 with
        keys := node1.keys.take (node1.keys.length / 2),
        values := node1.values.take (node1.values.length / 2),
        next := some (bl.length + 1) }⟩ : List (Block V)), bl.length + 2, []⟩, none) := by
  subst hn
  have hc_lt : c < bl.length := get?_some_lt hgc
  have hr_lt : r < bl.length := get?_some_lt hgr
  have h_e2 : setContent (⟨bl, bl.length, []⟩ : MemoryBlockEngine V) c
      { node1 with
        keys := node1.keys.take (node1.keys.length / 2),
        values := node1.values.take (node1.values.length / 2) } =
      ⟨bl.set c ⟨vlc, some { node1 with
        keys := node1.keys.take (node1.keys.length / 2),
        values := node1.values.take (node1.values.length / 2) }⟩, bl.length, []⟩ := by
    rw [setContent_eq hgc]
  have h_allocA : allocWrite
      (⟨bl.set c ⟨vlc, some { node1 with
        keys := node1.keys.take (node1.keys.length / 2),
        values := node1.values.take (node1.values.length / 2) }⟩, bl.length, []⟩ : MemoryBlockEngine V) ⟨none, node1.way, false, [], [], none, none, [c]⟩ =
      .ok (bl.length, ⟨(bl.set c ⟨vlc, some { node1 with
        keys := node1.keys.take (node1.keys.length / 2),
        values := node1.values.take (node1.values.length / 2) }⟩ ++
      [⟨true, some ⟨none, node1.way, false, [], [], none, none, [c]⟩⟩] : List (Block V)), bl.length + 1, []⟩) := by
    have h := allocWrite_eq
      (⟨bl.set c ⟨vlc, some { node1 with
        keys := node1.keys.take (node1.keys.length / 2),
        values := node1.values.take (node1.values.length / 2) }⟩, bl.length, []⟩ : MemoryBlockEngine V) ⟨none, node1.way, false, [], [], none, none, [c]⟩ rfl (by simp)
    simpa using h
  have h_g2r : (bl.set c ⟨vlc, some { node1 with
        keys := node1.keys.take (node1.keys.length / 2),
        values := node1.values.take (node1.values.length / 2) }⟩ : List (Block V)).get? r = some ⟨vlr, some rn⟩ := by
    rw [get?_set_ne _ _ _ _ hrc]
    exact hgr
  have h_cellget2 : cellGet (⟨bl.set c ⟨vlc, some { node1 with
        keys := node1.keys.take (node1.keys.length / 2),
        values := node1.values.take (node1.values.length / 2) }⟩, bl.length, []⟩ : MemoryBlockEngine V)
      none (.nodeField r) = none := by
    simp only [cellGet, h_g2r, hrp]
  have h_gAr : (bl.set c ⟨vlc, some { node1 with
        keys := node1.keys.take (node1.keys.length / 2),
        values := node1.values.take (node1.values.length / 2) }⟩ ++
      [⟨true, some ⟨none, node1.way, false, [], [], none, none, [c]⟩⟩] : List (Block V)).get? r = some ⟨vlr, some rn⟩ := by
    rw [get?_append_lt _ _ _ (by simp [hr_lt])]
    exact h_g2r
  have h_cellset : cellSet (⟨(bl.set c ⟨vlc, some { node1 with
        keys := node1.keys.take (node1.keys.length / 2),
        values := node1.values.take (node1.values.length / 2) }⟩ ++
      [⟨true, some ⟨none, node1.way, false, [], [], none, none, [c]⟩⟩] : List (Block V)), bl.length + 1, []⟩ : MemoryBlockEngine V)
      none (.nodeField r) (some bl.length) =
      (⟨((bl.set c ⟨vlc, some { node1 with
        keys := node1.keys.take (node1.keys.length / 2),
        values := node1.values.take (node1.values.length / 2) }⟩ ++
      [⟨true, some ⟨none, node1.way, false, [], [], none, none, [c]⟩⟩] : List (Block V)).set r ⟨vlr, some { rn with parent := some bl.length }⟩ : List (Block V)), bl.length + 1, []⟩, none) := by
    simp only [cellSet, h_gAr, setBlockAt]
  have h_g3r : ((bl.set c ⟨vlc, some { node1 with
        keys := node1.keys.take (node1.keys.length / 2),
        values := node1.values.take (node1.values.length / 2) }⟩ ++
      [⟨true, some ⟨none, node1.way, false, [], [], none, none, [c]⟩⟩] : List (Block V)).set r ⟨vlr, some { rn with parent := some bl.length }⟩ : List (Block V)).get? r = some ⟨vlr, some { rn with parent := some bl.length }⟩ :=
    get?_set_self _ _ _ (by simp [hr_lt]; omega)
  have h_cellget3 : cellGet (⟨((bl.set c ⟨vlc, some { node1 with
        keys := node1.keys.take (node1.keys.length / 2),
        values := node1.values.take (node1.values.length / 2) }⟩ ++
      [⟨true, some ⟨none, node1.way, false, [], [], none, none, [c]⟩⟩] : List (Block V)).set r ⟨vlr, some { rn with parent := some bl.length }⟩ : List (Block V)), bl.length + 1, []⟩ : MemoryBlockEngine V)
      none (.nodeField r) = some bl.length := by
    simp only [cellGet, h_g3r]
  have h_gApid : (bl.set c ⟨vlc, some { node1 with
        keys := node1.keys.take (node1.keys.length / 2),
        values := node1.values.take (node1.values.length / 2) }⟩ ++
      [⟨true, some ⟨none, node1.way, false, [], [], none, none, [c]⟩⟩] : List (Block V)).get? bl.length = some ⟨true, some ⟨none, node1.way, false, [], [], none, none, [c]⟩⟩ := by
    rw [show bl.length = (bl.set c ⟨vlc, some { node1 with
        keys := node1.keys.take (node1.keys.length / 2),
        values := node1.values.take (node1.values.length / 2) }⟩).length from (List.length_set bl c _).symm]
    exact get?_append_len _ _
  have h_g3pid : ((bl.set c ⟨vlc, some { node1 with
        keys := node1.keys.take (node1.keys.length / 2),
        values := node1.values.take (node1.values.length / 2) }⟩ ++
      [⟨true, some ⟨none, node1.way, false, [], [], none, none, [c]⟩⟩] : List (Block V)).set r ⟨vlr, some { rn with parent := some bl.length }⟩ : List (Block V)).get? bl.length = some ⟨true, some ⟨none, node1.way, false, [], [], none, none, [c]⟩⟩ := by
    rw [get?_set_ne _ _ _ _ (by omega)]
    exact h_gApid
  have h_fetch3 : fetchBlock (⟨((bl.set c ⟨vlc, some { node1 with
        keys := node1.keys.take (node1.keys.length / 2),
        values := node1.values.take (node1.values.length / 2) }⟩ ++
      [⟨true, some ⟨none, node1.way, false, [], [], none, none, [c]⟩⟩] : List (Block V)).set r ⟨vlr, some { rn with parent := some bl.length }⟩ : List (Block V)), bl.length + 1, []⟩ : MemoryBlockEngine V)
      bl.length = .ok ⟨true, some ⟨none, node1.way, false, [], [], none, none, [c]⟩⟩ :=
    fetchBlock_ok (show bl.length < bl.length + 1 by omega) h_g3pid
  have h_allocSib : allocWrite
      (⟨((bl.set c ⟨vlc, some { node1 with
        keys := node1.keys.take (node1.keys.length / 2),
        values := node1.values.take (node1.values.length / 2) }⟩ ++
      [⟨true, some ⟨none, node1.way, false, [], [], none, none, [c]⟩⟩] : List (Block V)).set r ⟨vlr, some { rn with parent := some bl.length }⟩ : List (Block V)), bl.length + 1, []⟩ : MemoryBlockEngine V) ⟨some bl.length, node1.way, true, mid :: rest,
        node1.values.drop (node1.values.length / 2), some c, node1.next, []⟩ =
      .ok (bl.length + 1, ⟨(((bl.set c ⟨vlc, some { node1 with
        keys := node1.keys.take (node1.keys.length / 2),
        values := node1.values.take (node1.values.length / 2) }⟩ ++
      [⟨true, some ⟨none, node1.way, false, [], [], none, none, [c]⟩⟩] : List (Block V)).set r ⟨vlr, some { rn with parent := some bl.length }⟩ : List (Block V)) ++ [⟨true, some ⟨some bl.length, node1.way, true, mid :: rest,
        node1.values.drop (node1.values.length / 2), some c, node1.next, []⟩⟩] : List (Block V)), bl.length + 2, []⟩) := by
    have h := allocWrite_eq
      (⟨((bl.set c ⟨vlc, some { node1 with
        keys := node1.keys.take (node1.keys.length / 2),
        values := node1.values.take (node1.values.length / 2) }⟩ ++
      [⟨true, some ⟨none, node1.way, false, [], [], none, none, [c]⟩⟩] : List (Block V)).set r ⟨vlr, some { rn with parent := some bl.length }⟩ : List (Block V)), bl.length + 1, []⟩ : MemoryBlockEngine V) ⟨some bl.length, node1.way, true, mid :: rest,
        node1.values.drop (node1.values.length / 2), some c, node1.next, []⟩ rfl (by simp)
    simpa using h
  have h_g4pid : (((bl.set c ⟨vlc, some { node1 with
        keys := node1.keys.take (node1.keys.length / 2),
        values := node1.values.take (node1.values.length / 2) }⟩ ++
      [⟨true, some ⟨none, node1.way, false, [], [], none, none, [c]⟩⟩] : List (Block V)).set r ⟨vlr, some { rn with parent := some bl.length }⟩ : List (Block V)) ++ [⟨true, some ⟨some bl.length, node1.way, true, mid :: rest,
        node1.values.drop (node1.values.length / 2), some c, node1.next, []⟩⟩] : List (Block V)).get? bl.length = some ⟨true, some ⟨none, node1.way, false, [], [], none, none, [c]⟩⟩ := by
    rw [get?_append_lt _ _ _ (by simp)]
    exact h_g3pid
  have h_e5 : setContent (⟨(((bl.set c ⟨vlc, some { node1 with
        keys := node1.keys.take (node1.keys.length / 2),
        values := node1.values.take (node1.values.length / 2) }⟩ ++
      [⟨true, some ⟨none, node1.way, false, [], [], none, none, [c]⟩⟩] : List (Block V)).set r ⟨vlr, some { rn with parent := some bl.length }⟩ : List (Block V)) ++ [⟨true, some ⟨some bl.length, node1.way, true, mid :: rest,
        node1.values.drop (node1.values.length / 2), some c, node1.next, []⟩⟩] : List (Block V)), bl.length + 2, []⟩ : MemoryBlockEngine V)
      bl.length ⟨none, node1.way, false, [mid], [], none, none, [c, bl.length + 1]⟩ =
      ⟨((((bl.set c ⟨vlc, some { node1 with
        keys := node1.keys.take (node1.keys.length / 2),
        values := node1.values.take (node1.values.length / 2) }⟩ ++
      [⟨true, some ⟨none, node1.way, false, [], [], none, none, [c]⟩⟩] : List (Block V)).set r ⟨vlr, some { rn with parent := some bl.length }⟩ : List (Block V)) ++ [⟨true, some ⟨some bl.length, node1.way, true, mid :: rest,
        node1.values.drop (node1.values.length / 2), some c, node1.next, []⟩⟩] : List (Block V)).set bl.length ⟨true, some ⟨none, node1.way, false, [mid], [], none, none, [c, bl.length + 1]⟩⟩ : List (Block V)), bl.length + 2, []⟩ := by
    rw [setContent_eq h_g4pid]
  have h_g5c : ((((bl.set c ⟨vlc, some { node1 with
        keys := node1.keys.take (node1.keys.length / 2),
        values := node1.values.take (node1.values.length / 2) }⟩ ++
      [⟨true, some ⟨none, node1.way, false, [], [], none, none, [c]⟩⟩] : List (Block V)).set r ⟨vlr, some { rn with parent := some bl.length }⟩ : List (Block V)) ++ [⟨true, some ⟨some bl.length, node1.way, true, mid :: rest,
        node1.values.drop (node1.values.length / 2), some c, node1.next, []⟩⟩] : List (Block V)).set bl.length ⟨true, some ⟨none, node1.way, false, [mid], [], none, none, [c, bl.length + 1]⟩⟩ : List (Block V)).get? c = some ⟨vlc, some { node1 with
        keys := node1.keys.take (node1.keys.length / 2),
        values := node1.values.take (node1.values.length / 2) }⟩ := by
    rw [get?_set_ne _ _ _ _ (by omega)]
    rw [get?_append_lt _ _ _ (by simp; omega)]
    rw [get?_set_ne _ _ _ _ (fun hcr => hrc hcr.symm)]
    rw [get?_append_lt _ _ _ (by simp [hc_lt])]
    exact get?_set_self _ _ _ hc_lt
  have h_nodeAt5c : nodeAt (⟨((((bl.set c ⟨vlc, some { node1 with
        keys := node1.keys.take (node1.keys.length / 2),
        values := node1.values.take (node1.values.length / 2) }⟩ ++
      [⟨true, some ⟨none, node1.way, false, [], [], none, none, [c]⟩⟩] : List (Block V)).set r ⟨vlr, some { rn with parent := some bl.length }⟩ : List (Block V)) ++ [⟨true, some ⟨some bl.length, node1.way, true, mid :: rest,
        node1.values.drop (node1.values.length / 2), some c, node1.next, []⟩⟩] : List (Block V)).set bl.length ⟨true, some ⟨none, node1.way, false, [mid], [], none, none, [c, bl.length + 1]⟩⟩ : List (Block V)), bl.length + 2, []⟩ : MemoryBlockEngine V)
      c = some { node1 with
        keys := node1.keys.take (node1.keys.length / 2),
        values := node1.values.take (node1.values.length / 2) } := by
    unfold nodeAt
    rw [h_g5c]
  have h_e6 : setContent (⟨((((bl.set c ⟨vlc, some { node1 with
        keys := node1.keys.take (node1.keys.length / 2),
        values := node1.values.take (node1.values.length / 2) }⟩ ++
      [⟨true, some ⟨none, node1.way, false, [], [], none, none, [c]⟩⟩] : List (Block V)).set r ⟨vlr, some { rn with parent := some bl.length }⟩ : List (Block V)) ++ [⟨true, some ⟨some bl.length, node1.way, true, mid :: rest,
        node1.values.drop (node1.values.length / 2), some c, node1.next, []⟩⟩] : List (Block V)).set bl.length ⟨true, some ⟨none, node1.way, false, [mid], [], none, none, [c, bl.length + 1]⟩⟩ : List (Block V)), bl.length + 2, []⟩ : MemoryBlockEngine V) c
      { node1 with
        keys := node1.keys.take (node1.keys.length / 2),
        values := node1.values.take (node1.values.length / 2),
        next := some (bl.length + 1) } =
      ⟨(((((bl.set c ⟨vlc, some { node1 with
        keys := node1.keys.take (node1.keys.length / 2),
        values := node1.values.take (node1.values.length / 2) }⟩ ++
      [⟨true, some ⟨none, node1.way, false, [], [], none, none, [c]⟩⟩] : List (Block V)).set r ⟨vlr, some { rn with parent := some bl.length }⟩ : List (Block V)) ++ [⟨true, some ⟨some bl.length, node1.way, true, mid :: rest,
        node1.values.drop (node1.values.length / 2), some c, node1.next, []⟩⟩] : List (Block V)).set bl.length ⟨true, some ⟨none, node1.way, false, [mid], [], none, none, [c, bl.length + 1]⟩⟩ : List (Block V)).set c ⟨vlc, some { node1 with
        keys := node1.keys.take (node1.keys.length / 2),
        values := node1.values.take (node1.values.length / 2),
        next := some (bl.length + 1) }⟩ : List (Block V)), bl.length + 2, []⟩ := by
    rw [setContent_eq h_g5c]
  simp only [splitLeaf, hdk, h_e2, h_cellget2, newInner, h_allocA, h_cellset,
    h_cellget3, h_fetch3, h_allocSib,
    show binarySearch ([] : List Nat) mid = Sum.inr 0 from rfl,
    unwrapOrIdx, vecInsert, Option.map_some', h_e5, h_nodeAt5c, h_e6]

/-- Running the leaf split when the cell is the parent field of the node
at block `r` and that field already names a block `p` holding an inner
node: the promoted key and the new sibling pointer are inserted into the
node at `p` (the detached inner node absorbing all promotions), and no new
root is reported. -/
theorem splitLeaf_nodeField_some_run (bl : List (Block V)) (c r p : Nat)
    (node1 rn pn : BPlusTreeNode V) (vlc vlr vlp : Bool) (mid : Nat)
    (rest : List Nat)
    (hgc : bl.get? c = some ⟨vlc, some node1⟩)
    (hgr : bl.get? r = some ⟨vlr, some rn⟩)
    (hgp : bl.get? p = some ⟨vlp, some pn⟩)
    (hrc : r ≠ c)
    (hpc : p ≠ c)
    (hrp : rn.parent = some p)
    (hppl : pn.pointers.length = pn.keys.length + 1)
    (hdk : node1.keys.drop (node1.keys.length / 2) = mid :: rest)
    (n : Nat) (hn : n = bl.length) :
    splitLeaf (.nodeField r) c (⟨bl, n, []⟩ : MemoryBlockEngine V)
        none node1 =
      .ok (⟨(((bl.set c ⟨vlc, some { node1 with
        keys := node1.keys.take (node1.keys.length / 2),
        values := node1.values.take (node1.values.length / 2) }⟩ ++ [⟨true, some ⟨some p, node1.way, true, mid :: rest,
        node1.values.drop (node1.values.length / 2), some c, node1.next, []⟩⟩] : List (Block V)).set p ⟨vlp, some { pn with keys := pn.keys.take (unwrapOrIdx (binarySearch pn.keys mid)) ++ mid :: pn.keys.drop (unwrapOrIdx (binarySearch pn.keys mid)), pointers := pn.pointers.take ((unwrapOrIdx (binarySearch pn.keys mid)) + 1) ++ bl.length :: pn.pointers.drop ((unwrapOrIdx (binarySearch pn.keys mid)) + 1) }⟩ : List (Block V)).set c ⟨vlc, some { node1 with
        keys := node1.keys.take (node1.keys.length / 2),
        values := node1.values.take (node1.values.length / 2),
        next := some bl.length }⟩ : List (Block V)), bl.length + 1, []⟩, none) := by
  subst hn
  have hc_lt : c < bl.length := get?_some_lt hgc
  have hp_lt : p < bl.length := get?_some_lt hgp
  have h_e2 : setContent (⟨bl, bl.length, []⟩ : MemoryBlockEngine V) c
      { node1 with
        keys := node1.keys.take (node1.keys.length / 2),
        values := node1.values.take (node1.values.length / 2) } =
      ⟨bl.set c ⟨vlc, some { node1 with
        keys := node1.keys.take (node1.keys.length / 2),
        values := node1.values.take (node1.values.length / 2) }⟩, bl.length, []⟩ := by
    rw [setContent_eq hgc]
  have h_g2r : (bl.set c ⟨vlc, some { node1 with
        keys := node1.keys.take (node1.keys.length / 2),
        values := node1.values.take (node1.values.length / 2) }⟩ : List (Block V)).get? r = some ⟨vlr, some rn⟩ := by
    rw [get?_set_ne _ _ _ _ hrc]
    exact hgr
  have h_cellget2 : cellGet (⟨bl.set c ⟨vlc, some { node1 with
        keys := node1.keys.take (node1.keys.length / 2),
        values := node1.values.take (node1.values.length / 2) }⟩, bl.length, []⟩ : MemoryBlockEngine V)
      none (.nodeField r) = some p := by
    simp only [cellGet, h_g2r, hrp]
  have h_g2p : (bl.set c ⟨vlc, some { node1 with
        keys := node1.keys.take (node1.keys.length / 2),
        values := node1.values.take (node1.values.length / 2) }⟩ : List (Block V)).get? p = some ⟨vlp, some pn⟩ := by
    rw [get?_set_ne _ _ _ _ hpc]
    exact hgp
  have h_fetch2p : fetchBlock (⟨bl.set c ⟨vlc, some { node1 with
        keys := node1.keys.take (node1.keys.length / 2),
        values := node1.values.take (node1.values.length / 2) }⟩, bl.length, []⟩ : MemoryBlockEngine V)
      p = .ok ⟨vlp, some pn⟩ :=
    fetchBlock_ok hp_lt h_g2p
  have h_allocSib : allocWrite
      (⟨bl.set c ⟨vlc, some { node1 with
        keys := node1.keys.take (node1.keys.length / 2),
        values := node1.values.take (node1.values.length / 2) }⟩, bl.length, []⟩ : MemoryBlockEngine V) ⟨some p, node1.way, true, mid :: rest,
        node1.values.drop (node1.values.length / 2), some c, node1.next, []⟩ =
      .ok (bl.length, ⟨(bl.set c ⟨vlc, some { node1 with
        keys := node1.keys.take (node1.keys.length / 2),
        values := node1.values.take (node1.values.length / 2) }⟩ ++ [⟨true, some ⟨some p, node1.way, true, mid :: rest,
        node1.values.drop (node1.values.length / 2), some c, node1.next, []⟩⟩] : List (Block V)), bl.length + 1, []⟩) := by
    have h := allocWrite_eq
      (⟨bl.set c ⟨vlc, some { node1 with
        keys := node1.keys.take (node1.keys.length / 2),
        values := node1.values.take (node1.values.length / 2) }⟩, bl.length, []⟩ : MemoryBlockEngine V) ⟨some p, node1.way, true, mid :: rest,
        node1.values.drop (node1.values.length / 2), some c, node1.next, []⟩ rfl (by simp)
    simpa using h
  have hv1 : vecInsert pn.keys (unwrapOrIdx (binarySearch pn.keys mid)) mid = some (pn.keys.take (unwrapOrIdx (binarySearch pn.keys mid)) ++ mid :: pn.keys.drop (unwrapOrIdx (binarySearch pn.keys mid))) :=
    vecInsert_le _ _ _ (unwrapOrIdx_le pn.keys mid)
  have hv2 : vecInsert pn.pointers ((unwrapOrIdx (binarySearch pn.keys mid)) + 1) bl.length = some (pn.pointers.take ((unwrapOrIdx (binarySearch pn.keys mid)) + 1) ++ bl.length :: pn.pointers.drop ((unwrapOrIdx (binarySearch pn.keys mid)) + 1)) := by
    apply vecInsert_le
    have := unwrapOrIdx_le pn.keys mid
    omega
  have h_g4p : (bl.set c ⟨vlc, some { node1 with
        keys := node1.keys.take (node1.keys.length / 2),
        values := node1.values.take (node1.values.length / 2) }⟩ ++ [⟨true, some ⟨some p, node1.way, true, mid :: rest,
        node1.values.drop (node1.values.length / 2), some c, node1.next, []⟩⟩] : List (Block V)).get? p = some ⟨vlp, some pn⟩ := by
    rw [get?_append_lt _ _ _ (by simp [hp_lt])]
    exact h_g2p
  have h_e5 : setContent (⟨(bl.set c ⟨vlc, some { node1 with
        keys := node1.keys.take (node1.keys.length / 2),
        values := node1.values.take (node1.values.length / 2) }⟩ ++ [⟨true, some ⟨some p, node1.way, true, mid :: rest,
        node1.values.drop (node1.values.length / 2), some c, node1.next, []⟩⟩] : List (Block V)), bl.length + 1, []⟩ : MemoryBlockEngine V)
      p { pn with keys := pn.keys.take (unwrapOrIdx (binarySearch pn.keys mid)) ++ mid :: pn.keys.drop (unwrapOrIdx (binarySearch pn.keys mid)), pointers := pn.pointers.take ((unwrapOrIdx (binarySearch pn.keys mid)) + 1) ++ bl.length :: pn.pointers.drop ((unwrapOrIdx (binarySearch pn.keys mid)) + 1) } =
      ⟨((bl.set c ⟨vlc, some { node1 with
        keys := node1.keys.take (node1.keys.length / 2),
        values := node1.values.take (node1.values.length / 2) }⟩ ++ [⟨true, some ⟨some p, node1.way, true, mid :: rest,
        node1.values.drop (node1.values.length / 2), some c, node1.next, []⟩⟩] : List (Block V)).set p ⟨vlp, some { pn with keys := pn.keys.take (unwrapOrIdx (binarySearch pn.keys mid)) ++ mid :: pn.keys.drop (unwrapOrIdx (binarySearch pn.keys mid)), pointers := pn.pointers.take ((unwrapOrIdx (binarySearch pn.keys mid)) + 1) ++ bl.length :: pn.pointers.drop ((unwrapOrIdx (binarySearch pn.keys mid)) + 1) }⟩ : List (Block V)), bl.length + 1, []⟩ := by
    rw [setContent_eq h_g4p]
  have h_g5c : ((bl.set c ⟨vlc, some { node1 with
        keys := node1.keys.take (node1.keys.length / 2),
        values := node1.values.take (node1.values.length / 2) }⟩ ++ [⟨true, some ⟨some p, node1.way, true, mid :: rest,
        node1.values.drop (node1.values.length / 2), some c, node1.next, []⟩⟩] : List (Block V)).set p ⟨vlp, some { pn with keys := pn.keys.take (unwrapOrIdx (binarySearch pn.keys mid)) ++ mid :: pn.keys.drop (unwrapOrIdx (binarySearch pn.keys mid)), pointers := pn.pointers.take ((unwrapOrIdx (binarySearch pn.keys mid)) + 1) ++ bl.length :: pn.pointers.drop ((unwrapOrIdx (binarySearch pn.keys mid)) + 1) }⟩ : List (Block V)).get? c = some ⟨vlc, some { node1 with
        keys := node1.keys.take (node1.keys.length / 2),
        values := node1.values.take (node1.values.length / 2) }⟩ := by
    rw [get?_set_ne _ _ _ _ (fun hcp => hpc hcp.symm)]
    rw [get?_append_lt _ _ _ (by simp [hc_lt])]
    exact get?_set_self _ _ _ hc_lt
  have h_nodeAt5c : nodeAt (⟨((bl.set c ⟨vlc, some { node1 with
        keys := node1.keys.take (node1.keys.length / 2),
        values := node1.values.take (node1.values.length / 2) }⟩ ++ [⟨true, some ⟨some p, node1.way, true, mid :: rest,
        node1.values.drop (node1.values.length / 2), some c, node1.next, []⟩⟩] : List (Block V)).set p ⟨vlp, some { pn with keys := pn.keys.take (unwrapOrIdx (binarySearch pn.keys mid)) ++ mid :: pn.keys.drop (unwrapOrIdx (binarySearch pn.keys mid)), pointers := pn.pointers.take ((unwrapOrIdx (binarySearch pn.keys mid)) + 1) ++ bl.length :: pn.pointers.drop ((unwrapOrIdx (binarySearch pn.keys mid)) + 1) }⟩ : List (Block V)), bl.length + 1, []⟩ : MemoryBlockEngine V)
      c = some { node1 with
        keys := node1.keys.take (node1.keys.length / 2),
        values := node1.values.take (node1.values.length / 2) } := by
    unfold nodeAt
    rw [h_g5c]
  have h_e6 : setContent (⟨((bl.set c ⟨vlc, some { node1 with
        keys := node1.keys.take (node1.keys.length / 2),
        values := node1.values.take (node1.values.length / 2) }⟩ ++ [⟨true, some ⟨some p, node1.way, true, mid :: rest,
        node1.values.drop (node1.values.length / 2), some c, node1.next, []⟩⟩] : List (Block V)).set p ⟨vlp, some { pn with keys := pn.keys.take (unwrapOrIdx (binarySearch pn.keys mid)) ++ mid :: pn.keys.drop (unwrapOrIdx (binarySearch pn.keys mid)), pointers := pn.pointers.take ((unwrapOrIdx (binarySearch pn.keys mid)) + 1) ++ bl.length :: pn.pointers.drop ((unwrapOrIdx (binarySearch pn.keys mid)) + 1) }⟩ : List (Block V)), bl.length + 1, []⟩ : MemoryBlockEngine V) c
      { node1 with
        keys := node1.keys.take (node1.keys.length / 2),
        values := node1.values.take (node1.values.length / 2),
        next := some bl.length } =
      ⟨(((bl.set c ⟨vlc, some { node1 with
        keys := node1.keys.take (node1.keys.length / 2),
        values := node1.values.take (node1.values.length / 2) }⟩ ++ [⟨true, some ⟨some p, node1.way, true, mid :: rest,
        node1.values.drop (node1.values.length / 2), some c, node1.next, []⟩⟩] : List (Block V)).set p ⟨vlp, some { pn with keys := pn.keys.take (unwrapOrIdx (binarySearch pn.keys mid)) ++ mid :: pn.keys.drop (unwrapOrIdx (binarySearch pn.keys mid)), pointers := pn.pointers.take ((unwrapOrIdx (binarySearch pn.keys mid)) + 1) ++ bl.length :: pn.pointers.drop ((unwrapOrIdx (binarySearch pn.keys mid)) + 1) }⟩ : List (Block V)).set c ⟨vlc, some { node1 with
        keys := node1.keys.take (node1.keys.length / 2),
        values := node1.values.take (node1.values.length / 2),
        next := some bl.length }⟩ : List (Block V)), bl.length + 1, []⟩ := by
    rw [setContent_eq h_g5c]
  simp only [splitLeaf, hdk, h_e2, h_cellget2, h_fetch2p, h_allocSib,
    hv1, hv2, h_e5, h_nodeAt5c, h_e6]

/-- Splitting an overfull inner root through the top-level cell panics:
the fresh inner node created by `new_inner` holds no pointer to the
splitting block, so inserting the sibling pointer at position 1 of its
empty pointer vector is out of bounds. This makes the inner split
unreachable in any completed insert (it only triggers at order 0). -/
theorem splitInner_top_err (bl : List (Block V)) (r : Nat)
    (node1 : BPlusTreeNode V) (vlr : Bool) (k0 : Nat)
    (hgr : bl.get? r = some ⟨vlr, some node1⟩)
    (hk : node1.keys = [k0])
    (n : Nat) (hn : n = bl.length) :
    splitInner .top r (⟨bl, n, []⟩ : MemoryBlockEngine V) none node1 =
      .error .panicked := by
  subst hn
  have ht : node1.keys.take (node1.keys.length / 2) = [] := by
    simp [hk]
  have hd : node1.keys.drop (node1.keys.length / 2) = [k0] := by
    simp [hk]
  have h_e2 : setContent (⟨bl, bl.length, []⟩ : MemoryBlockEngine V) r
      { node1 with keys := [], pointers := [] } =
      ⟨bl.set r ⟨vlr, some { node1 with keys := [], pointers := [] }⟩,
       bl.length, []⟩ := by
    rw [setContent_eq hgr]
  have h_allocA : allocWrite
      (⟨bl.set r ⟨vlr, some { node1 with keys := [], pointers := [] }⟩,
        bl.length, []⟩ : MemoryBlockEngine V)
      ⟨none, node1.way, false, [], [], none, none, []⟩ =
      .ok (bl.length,
        ⟨bl.set r ⟨vlr, some { node1 with keys := [], pointers := [] }⟩ ++
          [⟨true, some ⟨none, node1.way, false, [], [], none, none, []⟩⟩],
         bl.length + 1, []⟩) := by
    have h := allocWrite_eq
      (⟨bl.set r ⟨vlr, some { node1 with keys := [], pointers := [] }⟩,
        bl.length, []⟩ : MemoryBlockEngine V)
      ⟨none, node1.way, false, [], [], none, none, []⟩ rfl (by simp)
    simpa using h
  have h_fetchA : fetchBlock
      (⟨bl.set r ⟨vlr, some { node1 with keys := [], pointers := [] }⟩ ++
        [⟨true, some ⟨none, node1.way, false, [], [], none, none, []⟩⟩],
       bl.length + 1, []⟩ : MemoryBlockEngine V) bl.length =
      .ok ⟨true, some ⟨none, node1.way, false, [], [], none, none, []⟩⟩ := by
    have h_gA : ((bl.set r ⟨vlr, some { node1 with
          keys := [], pointers := [] }⟩ ++
        [⟨true, some ⟨none, node1.way, false, [], [], none, none, []⟩⟩]) :
          List (Block V)).get? bl.length =
        some ⟨true, some ⟨none, node1.way, false, [], [], none, none, []⟩⟩ := by
      rw [show bl.length = (bl.set r ⟨vlr, some { node1 with
          keys := [], pointers := [] }⟩).length
        from (List.length_set bl r _).symm]
      exact get?_append_len _ _
    exact fetchBlock_ok (show bl.length < bl.length + 1 by omega) h_gA
  have h_allocSib : allocWrite
      (⟨bl.set r ⟨vlr, some { node1 with keys := [], pointers := [] }⟩ ++
        [⟨true, some ⟨none, node1.way, false, [], [], none, none, []⟩⟩],
       bl.length + 1, []⟩ : MemoryBlockEngine V)
      ⟨some bl.length, node1.way, false, [], [], some r, node1.next,
        node1.pointers⟩ =
      .ok (bl.length + 1,
        ⟨bl.set r ⟨vlr, some { node1 with keys := [], pointers := [] }⟩ ++
          [⟨true, some ⟨none, node1.way, false, [], [], none, none, []⟩⟩] ++
          [⟨true, some ⟨some bl.length, node1.way, false, [], [], some r,
            node1.next, node1.pointers⟩⟩],
         bl.length + 2, []⟩) := by
    have h := allocWrite_eq
      (⟨bl.set r ⟨vlr, some { node1 with keys := [], pointers := [] }⟩ ++
        [⟨true, some ⟨none, node1.way, false, [], [], none, none, []⟩⟩],
       bl.length + 1, []⟩ : MemoryBlockEngine V)
      ⟨some bl.length, node1.way, false, [], [], some r, node1.next,
        node1.pointers⟩ rfl (by simp)
    simpa using h
  simp only [splitInner, ht, hd, List.length_nil, Nat.zero_div,
    List.take_zero, List.drop_zero, h_e2, cellGet, newInner, h_allocA,
    cellSet, h_fetchA, h_allocSib,
    show binarySearch ([] : List Nat) k0 = Sum.inr 0 from rfl,
    unwrapOrIdx, vecInsert]

/-- One step of the insert helper at a block holding an inner node: the
call descends into the child at the raw binary-search position, passing
the parent field of the current node as the cell, and then unwinds through
the overflow check on the current block. -/
theorem insertHelper_inner_step (key : Nat) (v : V) (fuel : Nat)
    (e : MemoryBlockEngine V) (cell : PCell) (tv : Option Nat) (r : Nat)
    (vlr : Bool) (rn : BPlusTreeNode V) (child : Nat)
    (hnext : e.nextBlockId = e.blocks.length)
    (hgr : e.blocks.get? r = some ⟨vlr, some rn⟩)
    (hleaf : rn.isLeaf = false)
    (hchild : rn.pointers.get? (insertChildIdx rn.keys key) = some child)
    (res : MemoryBlockEngine V × Option Nat)
    (hrec : insertHelper key v fuel e (.nodeField r) tv child = .ok res) :
    insertHelper key v (fuel + 1) e cell tv r =
      overflowAndSplit cell r res := by
  have hfb := fetchBlock_ok (by rw [hnext]; exact get?_some_lt hgr) hgr
  simp only [insertHelper, hfb]
  rw [if_neg (by simp [hleaf])]
  simp only [hchild, hrec]

/-- Insert preserves the invariant when the root is a leaf: either the
key/value pair fits, or the root leaf splits through the top-level cell,
producing a proper new inner root with one separator and two leaf
children. -/
theorem inv_step_leafroot (w root : Nat) (bl : List (Block V)) (k : Nat)
    (v : V) (s1 : BPlusTree V)
    (hblocks : ∀ i b, bl.get? i = some b →
      ∃ n, b.content = some n ∧ InnerOk n ∧ LeafOk n)
    (vlr : Bool) (rn : BPlusTreeNode V)
    (hgrb : bl.get? root = some ⟨vlr, some rn⟩)
    (hleaf : rn.isLeaf = true)
    (h : (match insertHelper k v (bl.length + 2)
            (⟨bl, bl.length, []⟩ : MemoryBlockEngine V) .top none root with
          | Except.error f => Except.error f
          | Except.ok (e1, tv) =>
            Except.ok (⟨w, e1,
              match tv with | some r => r | none => root⟩ : BPlusTree V)) =
         .ok s1) :
    Inv s1 := by
  have hroot_lt : root < bl.length := get?_some_lt hgrb
  have hLO : rn.values.length = rn.keys.length := by
    obtain ⟨n2, hcn, _, hlo⟩ := hblocks root _ hgrb
    have hn2 : rn = n2 := by injection hcn
    subst hn2
    exact hlo hleaf
  rw [show bl.length + 2 = bl.length + 1 + 1 from rfl] at h
  obtain ⟨ks, vs, hkl, hvl, hrun⟩ :=
    insertHelper_leaf_step k v (bl.length + 1)
      (⟨bl, bl.length, []⟩ : MemoryBlockEngine V) .top none root vlr rn
      rfl hgrb hleaf hLO
  rw [hrun] at h
  rw [setContent_eq hgrb { rn with keys := ks, values := vs }] at h
  generalize hnd : ({ rn with keys := ks, values := vs } :
    BPlusTreeNode V) = nd at h
  have hndk : nd.keys = ks := by rw [← hnd]
  have hndv : nd.values = vs := by rw [← hnd]
  have hndL : nd.isLeaf = true := by rw [← hnd]; exact hleaf
  have hndw : nd.way = rn.way := by rw [← hnd]
  have hn1 : nodeAt
      (⟨bl.set root ⟨vlr, some nd⟩, bl.length, []⟩ :
        MemoryBlockEngine V) root = some nd := by
    unfold nodeAt
    rw [get?_set_self _ _ _ hroot_lt]
  by_cases hov : ks.length ≤ rn.way
  · -- the pair fits: no split
    rw [overflowAndSplit_no .top root _ none nd hn1
      (by rw [hndk, hndw]; exact hov)] at h
    injection h with h1
    subst h1
    refine ⟨⟨rfl, by simp, ?_⟩, ?_⟩
    · intro i bb hgi
      by_cases hir : i = root
      · subst hir
        rw [get?_set_self _ _ _ hroot_lt] at hgi
        injection hgi with hgi1
        subst hgi1
        refine ⟨nd, rfl, ?_, ?_⟩
        · intro hfalse
          rw [hndL] at hfalse
          cases hfalse
        · intro _
          rw [hndk, hndv]
          omega
      · rw [get?_set_ne _ _ _ _ hir] at hgi
        exact hblocks i bb hgi
    · exact ⟨nd, hn1, Or.inl hndL⟩
  · -- the leaf root splits through the top cell
    rw [overflowAndSplit_leaf .top root _ none nd hn1
      (by rw [hndk, hndw]; omega) hndL] at h
    cases hdk0 : nd.keys.drop (nd.keys.length / 2) with
    | nil =>
      exfalso
      have hdl := congrArg List.length hdk0
      simp only [List.length_drop, List.length_nil, hndk] at hdl
      omega
    | cons mid rest =>
      have hrest : rest.length + 1 = ks.length - ks.length / 2 := by
        have hdl := congrArg List.length hdk0
        simp only [List.length_drop, List.length_cons, hndk] at hdl
        omega
      rw [splitLeaf_top_run (bl.set root ⟨vlr, some nd⟩) root nd vlr mid rest
          (get?_set_self _ _ _ hroot_lt) hdk0 bl.length (by simp)] at h
      rw [show ((bl.set root ⟨vlr, some nd⟩ : List (Block V)).length) =
          bl.length from List.length_set bl root _] at h
      injection h with h1
      subst h1
      change Inv ⟨w, _, bl.length⟩
      have hlen2 : ((bl.set root ⟨vlr, some nd⟩ : List (Block V)).set root
          ⟨vlr, some { nd with
            keys := nd.keys.take (nd.keys.length / 2),
            values := nd.values.take (nd.values.length / 2) }⟩ ++
          [⟨true, some ⟨none, nd.way, false, [], [], none, none, [root]⟩⟩] ++
          [⟨true, some ⟨some bl.length, nd.way, true, mid :: rest,
            nd.values.drop (nd.values.length / 2), some root, nd.next,
            []⟩⟩] : List (Block V)).length = bl.length + 2 := by
        simp
      constructor
      · refine ⟨rfl, by simp, ?_⟩
        intro i bb hgi
        by_cases hi_r : i = root
        · subst hi_r
          rw [get?_set_self _ _ _ (by rw [List.length_set, hlen2]; omega)]
            at hgi
          injection hgi with hgi1
          subst hgi1
          refine ⟨_, rfl, ?_, ?_⟩
          · intro hfalse
            rw [show ({ nd with
                keys := nd.keys.take (nd.keys.length / 2),
                values := nd.values.take (nd.values.length / 2),
                next := some (bl.length + 1) } :
                BPlusTreeNode V).isLeaf = nd.isLeaf from rfl, hndL] at hfalse
            cases hfalse
          · intro _
            show (nd.values.take (nd.values.length / 2)).length =
              (nd.keys.take (nd.keys.length / 2)).length
            rw [hndk, hndv]
            simp only [List.length_take]
            omega
        · rw [get?_set_ne _ _ _ _ hi_r] at hgi
          by_cases hi_n : i = bl.length
          · subst hi_n
            rw [get?_set_self _ _ _ (by rw [hlen2]; omega)] at hgi
            injection hgi with hgi1
            subst hgi1
            refine ⟨_, rfl, ?_, ?_⟩
            · intro _
              rfl
            · intro htrue
              exact nomatch htrue
          · rw [get?_set_ne _ _ _ _ hi_n] at hgi
            by_cases hi_s : i = bl.length + 1
            · subst hi_s
              rw [show bl.length + 1 =
                  (((bl.set root ⟨vlr, some nd⟩ : List (Block V)).set root
                    ⟨vlr, some { nd with
                      keys := nd.keys.take (nd.keys.length / 2),
                      values := nd.values.take (nd.values.length / 2) }⟩ ++
                    [⟨true, some ⟨none, nd.way, false, [], [], none, none,
                      [root]⟩⟩] : List (Block V))).length from by simp] at hgi
              rw [get?_append_len] at hgi
              injection hgi with hgi1
              subst hgi1
              refine ⟨_, rfl, ?_, ?_⟩
              · intro hfalse
                exact nomatch hfalse
              intro _
              show (nd.values.drop (nd.values.length / 2)).length =
                (mid :: rest).length
              rw [hndv]
              simp only [List.length_drop, List.length_cons]
              omega
            · by_cases hi_lt : i < bl.length
              · rw [get?_append_lt _ _ _ (by simp; omega)] at hgi
                rw [get?_append_lt _ _ _ (by simp; omega)] at hgi
                rw [get?_set_ne _ _ _ _ hi_r] at hgi
                rw [get?_set_ne _ _ _ _ hi_r] at hgi
                exact hblocks i bb hgi
              · exfalso
                have hge : bl.length + 2 ≤ i := by omega
                rw [get?_none_of_le _ _ (by rw [hlen2]; omega)] at hgi
                cases hgi
      · -- shape of the new root
        have hA : nodeAt (⟨((((bl.set root ⟨vlr, some nd⟩ : List (Block V)).set root
            ⟨vlr, some { nd with
              keys := nd.keys.take (nd.keys.length / 2),
              values := nd.values.take (nd.values.length / 2) }⟩ ++
            [⟨true, some ⟨none, nd.way, false, [], [], none, none, [root]⟩⟩] ++
            [⟨true, some ⟨some bl.length, nd.way, true, mid :: rest,
              nd.values.drop (nd.values.length / 2), some root, nd.next,
              []⟩⟩] : List (Block V)).set bl.length
            ⟨true, some ⟨none, nd.way, false, [mid], [], none, none,
              [root, bl.length + 1]⟩⟩ : List (Block V)).set root
            ⟨vlr, some { nd with
              keys := nd.keys.take (nd.keys.length / 2),
              values := nd.values.take (nd.values.length / 2),
              next := some (bl.length + 1) }⟩ : List (Block V)),
            bl.length + 2, []⟩ : MemoryBlockEngine V) bl.length =
            some ⟨none, nd.way, false, [mid], [], none, none,
              [root, bl.length + 1]⟩ := by
          unfold nodeAt
          rw [get?_set_ne _ _ _ _ (show (bl.length : Nat) ≠ root by omega)]
          rw [get?_set_self _ _ _ (by rw [hlen2]; omega)]
        have hB : nodeAt (⟨((((bl.set root ⟨vlr, some nd⟩ : List (Block V)).set root
            ⟨vlr, some { nd with
              keys := nd.keys.take (nd.keys.length / 2),
              values := nd.values.take (nd.values.length / 2) }⟩ ++
            [⟨true, some ⟨none, nd.way, false, [], [], none, none, [root]⟩⟩] ++
            [⟨true, some ⟨some bl.length, nd.way, true, mid :: rest,
              nd.values.drop (nd.values.length / 2), some root, nd.next,
              []⟩⟩] : List (Block V)).set bl.length
            ⟨true, some ⟨none, nd.way, false, [mid], [], none, none,
              [root, bl.length + 1]⟩⟩ : List (Block V)).set root
            ⟨vlr, some { nd with
              keys := nd.keys.take (nd.keys.length / 2),
              values := nd.values.take (nd.values.length / 2),
              next := some (bl.length + 1) }⟩ : List (Block V)),
            bl.length + 2, []⟩ : MemoryBlockEngine V) root =
            some { nd with
              keys := nd.keys.take (nd.keys.length / 2),
              values := nd.values.take (nd.values.length / 2),
              next := some (bl.length + 1) } := by
          unfold nodeAt
          rw [get?_set_self _ _ _ (by rw [List.length_set, hlen2]; omega)]
        have hC : nodeAt (⟨((((bl.set root ⟨vlr, some nd⟩ : List (Block V)).set root
            ⟨vlr, some { nd with
              keys := nd.keys.take (nd.keys.length / 2),
              values := nd.values.take (nd.values.length / 2) }⟩ ++
            [⟨true, some ⟨none, nd.way, false, [], [], none, none, [root]⟩⟩] ++
            [⟨true, some ⟨some bl.length, nd.way, true, mid :: rest,
              nd.values.drop (nd.values.length / 2), some root, nd.next,
              []⟩⟩] : List (Block V)).set bl.length
            ⟨true, some ⟨none, nd.way, false, [mid], [], none, none,
              [root, bl.length + 1]⟩⟩ : List (Block V)).set root
            ⟨vlr, some { nd with
              keys := nd.keys.take (nd.keys.length / 2),
              values := nd.values.take (nd.values.length / 2),
              next := some (bl.length + 1) }⟩ : List (Block V)),
            bl.length + 2, []⟩ : MemoryBlockEngine V) (bl.length + 1) =
            some ⟨some bl.length, nd.way, true, mid :: rest,
              nd.values.drop (nd.values.length / 2), some root, nd.next,
              []⟩ := by
          unfold nodeAt
          rw [get?_set_ne _ _ _ _ (by omega)]
          rw [get?_set_ne _ _ _ _ (by omega)]
          rw [show bl.length + 1 =
              (((bl.set root ⟨vlr, some nd⟩ : List (Block V)).set root
                ⟨vlr, some { nd with
              keys := nd.keys.take (nd.keys.length / 2),
              values := nd.values.take (nd.values.length / 2) }⟩ ++
                [⟨true, some ⟨none, nd.way, false, [], [], none, none,
                  [root]⟩⟩] : List (Block V))).length from by simp]
          rw [get?_append_len]
        refine ⟨⟨none, nd.way, false, [mid], [], none, none,
          [root, bl.length + 1]⟩, hA, Or.inr ⟨rfl, ⟨mid, rfl⟩,
          ⟨root, bl.length + 1, rfl, ?_, ?_⟩, Or.inl rfl⟩⟩
        · exact ⟨{ nd with
              keys := nd.keys.take (nd.keys.length / 2),
              values := nd.values.take (nd.values.length / 2),
              next := some (bl.length + 1) }, hB, hndL⟩
        · exact ⟨⟨some bl.length, nd.way, true, mid :: rest,
            nd.values.drop (nd.values.length / 2), some root, nd.next, []⟩,
            hC, rfl⟩

/-- Insert preserves the invariant when the root is an inner node with one
separator and two leaf children. The descent visits one leaf child; the
cell handed to the child frame is the parent field of the root, so a child
split promotes into the detached inner node that field names (creating it
first when the field is empty), and the root node itself never gains a
key. -/
theorem inv_step_innerroot (w root : Nat) (bl : List (Block V)) (k : Nat)
    (v : V) (s1 : BPlusTree V)
    (hblocks : ∀ i b, bl.get? i = some b →
      ∃ n, b.content = some n ∧ InnerOk n ∧ LeafOk n)
    (vlr : Bool) (rn : BPlusTreeNode V)
    (hgrb : bl.get? root = some ⟨vlr, some rn⟩)
    (hinner : rn.isLeaf = false)
    (k0 : Nat) (hk0 : rn.keys = [k0])
    (a b : Nat) (hptr : rn.pointers = [a, b])
    (hla : IsLeafAt (⟨bl, bl.length, []⟩ : MemoryBlockEngine V) a)
    (hlb : IsLeafAt (⟨bl, bl.length, []⟩ : MemoryBlockEngine V) b)
    (hpar : rn.parent = none ∨ ∃ p, rn.parent = some p ∧ p ≠ root ∧
      IsInnerAt (⟨bl, bl.length, []⟩ : MemoryBlockEngine V) p)
    (h : (match insertHelper k v (bl.length + 2)
            (⟨bl, bl.length, []⟩ : MemoryBlockEngine V) .top none root with
          | Except.error f => Except.error f
          | Except.ok (e1, tv) =>
            Except.ok (⟨w, e1,
              match tv with | some r => r | none => root⟩ : BPlusTree V)) =
         .ok s1) :
    Inv s1 := by
  have hroot_lt : root < bl.length := get?_some_lt hgrb
  obtain ⟨c, hchild, hcIsLeaf⟩ :
      ∃ c, rn.pointers.get? (insertChildIdx rn.keys k) = some c ∧
        IsLeafAt (⟨bl, bl.length, []⟩ : MemoryBlockEngine V) c := by
    have hkl0 : rn.keys.length = 1 := by rw [hk0]; rfl
    have hle : insertChildIdx rn.keys k ≤ 1 := by
      unfold insertChildIdx
      have := unwrapOrIdx_le rn.keys k
      omega
    rcases Nat.lt_or_ge (insertChildIdx rn.keys k) 1 with h0 | h1
    · have hz : insertChildIdx rn.keys k = 0 := by omega
      exact ⟨a, by rw [hz, hptr]; rfl, hla⟩
    · have ho : insertChildIdx rn.keys k = 1 := by omega
      exact ⟨b, by rw [ho, hptr]; rfl, hlb⟩
  obtain ⟨nc, hnc, hncL⟩ := hcIsLeaf
  obtain ⟨cb, hgcb0, hcc⟩ := nodeAt_some hnc
  obtain ⟨vlc, ccontent⟩ := cb
  have hccc : ccontent = some nc := hcc
  subst hccc
  have hc_lt : c < bl.length := get?_some_lt hgcb0
  have hrc : root ≠ c := by
    intro he
    rw [he] at hgrb
    rw [hgrb] at hgcb0
    injection hgcb0 with hgc1
    injection hgc1 with hgc2 hgc3
    injection hgc3 with hgc4
    rw [hgc4, hncL] at hinner
    cases hinner
  have hLOc : nc.values.length = nc.keys.length := by
    obtain ⟨n2, hcn, _, hlo⟩ := hblocks c _ hgcb0
    have hn2 : nc = n2 := by injection hcn
    subst hn2
    exact hlo hncL
  rw [show bl.length + 2 = bl.length + 1 + 1 from rfl] at h
  obtain ⟨ks, vs, hkl, hvl, hrun⟩ :=
    insertHelper_leaf_step k v bl.length
      (⟨bl, bl.length, []⟩ : MemoryBlockEngine V) (.nodeField root) none c
      vlc nc rfl hgcb0 hncL hLOc
  rw [setContent_eq hgcb0 { nc with keys := ks, values := vs }] at hrun
  generalize hnd : ({ nc with keys := ks, values := vs } :
    BPlusTreeNode V) = nd at hrun
  have hndk : nd.keys = ks := by rw [← hnd]
  have hndv : nd.values = vs := by rw [← hnd]
  have hndL : nd.isLeaf = true := by rw [← hnd]; exact hncL
  have hndw : nd.way = nc.way := by rw [← hnd]
  have hn1 : nodeAt
      (⟨bl.set c ⟨vlc, some nd⟩, bl.length, []⟩ :
        MemoryBlockEngine V) c = some nd := by
    unfold nodeAt
    rw [get?_set_self _ _ _ hc_lt]
  by_cases hov : ks.length ≤ nc.way
  · -- the child absorbs the pair without splitting
    rw [overflowAndSplit_no (.nodeField root) c _ none nd hn1
      (by rw [hndk, hndw]; exact hov)] at hrun
    rw [insertHelper_inner_step k v (bl.length + 1)
      (⟨bl, bl.length, []⟩ : MemoryBlockEngine V) .top none root vlr rn c
      rfl hgrb hinner hchild _ hrun] at h
    have hnroot1 : nodeAt
        (⟨bl.set c ⟨vlc, some nd⟩, bl.length, []⟩ :
          MemoryBlockEngine V) root = some rn := by
      unfold nodeAt
      rw [get?_set_ne _ _ _ _ hrc, hgrb]
    by_cases hw : rn.keys.length ≤ rn.way
    · rw [overflowAndSplit_no .top root _ none rn hnroot1 hw] at h
      injection h with h1
      subst h1
      change Inv ⟨w, _, root⟩
      constructor
      · refine ⟨rfl, by simp, ?_⟩
        intro i bb hgi
        by_cases hic : i = c
        · subst hic
          rw [get?_set_self _ _ _ hc_lt] at hgi
          injection hgi with hgi1
          subst hgi1
          refine ⟨nd, rfl, ?_, ?_⟩
          · intro hfalse
            rw [hndL] at hfalse
            cases hfalse
          · intro _
            rw [hndk, hndv]
            omega
        · rw [get?_set_ne _ _ _ _ hic] at hgi
          exact hblocks i bb hgi
      · refine ⟨rn, hnroot1, Or.inr ⟨hinner, ⟨k0, hk0⟩, ⟨a, b, hptr,
          ?_, ?_⟩, ?_⟩⟩
        · obtain ⟨na, hna, hnaL⟩ := hla
          by_cases hac : a = c
          · subst hac
            exact ⟨nd, hn1, hndL⟩
          · refine ⟨na, ?_, hnaL⟩
            unfold nodeAt
            rw [get?_set_ne _ _ _ _ hac]
            obtain ⟨ba, hba, hbac⟩ := nodeAt_some hna
            rw [hba]
            exact hbac
        · obtain ⟨nb, hnb, hnbL⟩ := hlb
          by_cases hbc : b = c
          · subst hbc
            exact ⟨nd, hn1, hndL⟩
          · refine ⟨nb, ?_, hnbL⟩
            unfold nodeAt
            rw [get?_set_ne _ _ _ _ hbc]
            obtain ⟨bb2, hbb2, hbb2c⟩ := nodeAt_some hnb
            rw [hbb2]
            exact hbb2c
        · rcases hpar with hpn | ⟨p, hp, hpr, np, hnp, hnpI⟩
          · exact Or.inl hpn
          · refine Or.inr ⟨p, hp, hpr, np, ?_, hnpI⟩
            have hpc : p ≠ c := by
              intro he
              rw [he] at hnp
              rw [hnc] at hnp
              injection hnp with hnp1
              rw [← hnp1, hncL] at hnpI
              cases hnpI
            unfold nodeAt
            rw [get?_set_ne _ _ _ _ hpc]
            obtain ⟨bp, hbp, hbpc⟩ := nodeAt_some hnp
            rw [hbp]
            exact hbpc
    · -- order 0: the root inner split panics, no state is reached
      rw [overflowAndSplit_inner .top root _ none rn hnroot1
        (by omega) hinner] at h
      rw [splitInner_top_err (bl.set c ⟨vlc, some nd⟩) root rn vlr k0
        (by rw [get?_set_ne _ _ _ _ hrc]; exact hgrb) hk0
        bl.length (by simp)] at h
      simp at h
  · -- the child splits
    rw [overflowAndSplit_leaf (.nodeField root) c _ none nd hn1
      (by rw [hndk, hndw]; omega) hndL] at hrun
    cases hdk0 : nd.keys.drop (nd.keys.length / 2) with
    | nil =>
      exfalso
      have hdl := congrArg List.length hdk0
      simp only [List.length_drop, List.length_nil, hndk] at hdl
      omega
    | cons mid rest =>
      have hrest : rest.length + 1 = ks.length - ks.length / 2 := by
        have hdl := congrArg List.length hdk0
        simp only [List.length_drop, List.length_cons, hndk] at hdl
        omega
      rcases hpar with hpn | ⟨p, hp, hpr, np, hnp, hnpI⟩
      · -- the parent field of the root is empty: a detached node is created
        rw [splitLeaf_nodeField_none_run (bl.set c ⟨vlc, some nd⟩) c root
            nd rn vlc vlr mid rest
            (get?_set_self _ _ _ hc_lt)
            (by rw [get?_set_ne _ _ _ _ hrc]; exact hgrb)
            hrc hpn hdk0 bl.length (by simp)] at hrun
        rw [show ((bl.set c ⟨vlc, some nd⟩ : List (Block V)).length) =
            bl.length from List.length_set bl c _] at hrun
        rw [insertHelper_inner_step k v (bl.length + 1)
          (⟨bl, bl.length, []⟩ : MemoryBlockEngine V) .top none root vlr rn c
          rfl hgrb hinner hchild _ hrun] at h
        have hg6root : (((((((bl.set c ⟨vlc, some nd⟩ : List (Block V)).set c ⟨vlc, some { nd with
        keys := nd.keys.take (nd.keys.length / 2),
        values := nd.values.take (nd.values.length / 2) }⟩ ++
      [⟨true, some ⟨none, nd.way, false, [], [], none, none, [c]⟩⟩] : List (Block V)).set root ⟨vlr, some { rn with parent := some bl.length }⟩ : List (Block V)) ++ [⟨true, some ⟨some bl.length, nd.way, true, mid :: rest,
        nd.values.drop (nd.values.length / 2), some c, nd.next, []⟩⟩] : List (Block V)).set bl.length ⟨true, some ⟨none, nd.way, false, [mid], [], none, none, [c, bl.length + 1]⟩⟩ : List (Block V)).set c ⟨vlc, some { nd with
        keys := nd.keys.take (nd.keys.length / 2),
        values := nd.values.take (nd.values.length / 2),
        next := some (bl.length + 1) }⟩ : List (Block V))).get? root = some ⟨vlr, some { rn with parent := some bl.length }⟩ := by
          rw [get?_set_ne _ _ _ _ hrc]
          rw [get?_set_ne _ _ _ _ (by omega)]
          rw [get?_append_lt _ _ _ (by simp; omega)]
          exact get?_set_self _ _ _ (by simp; omega)
        have hnroot6 : nodeAt (⟨((((((bl.set c ⟨vlc, some nd⟩ : List (Block V)).set c ⟨vlc, some { nd with
        keys := nd.keys.take (nd.keys.length / 2),
        values := nd.values.take (nd.values.length / 2) }⟩ ++
      [⟨true, some ⟨none, nd.way, false, [], [], none, none, [c]⟩⟩] : List (Block V)).set root ⟨vlr, some { rn with parent := some bl.length }⟩ : List (Block V)) ++ [⟨true, some ⟨some bl.length, nd.way, true, mid :: rest,
        nd.values.drop (nd.values.length / 2), some c, nd.next, []⟩⟩] : List (Block V)).set bl.length ⟨true, some ⟨none, nd.way, false, [mid], [], none, none, [c, bl.length + 1]⟩⟩ : List (Block V)).set c ⟨vlc, some { nd with
        keys := nd.keys.take (nd.keys.length / 2),
        values := nd.values.take (nd.values.length / 2),
        next := some (bl.length + 1) }⟩ : List (Block V)), bl.length + 2, []⟩ :
            MemoryBlockEngine V) root = some { rn with parent := some bl.length } := by
          unfold nodeAt
          rw [hg6root]
        by_cases hw : rn.keys.length ≤ rn.way
        · rw [overflowAndSplit_no .top root _ none { rn with parent := some bl.length } hnroot6 hw] at h
          injection h with h1
          subst h1
          change Inv ⟨w, _, root⟩
          have hkeep : ∀ x bx, bl.get? x = some bx → x ≠ c → x ≠ root →
              x < bl.length → (((((((bl.set c ⟨vlc, some nd⟩ : List (Block V)).set c ⟨vlc, some { nd with
        keys := nd.keys.take (nd.keys.length / 2),
        values := nd.values.take (nd.values.length / 2) }⟩ ++
      [⟨true, some ⟨none, nd.way, false, [], [], none, none, [c]⟩⟩] : List (Block V)).set root ⟨vlr, some { rn with parent := some bl.length }⟩ : List (Block V)) ++ [⟨true, some ⟨some bl.length, nd.way, true, mid :: rest,
        nd.values.drop (nd.values.length / 2), some c, nd.next, []⟩⟩] : List (Block V)).set bl.length ⟨true, some ⟨none, nd.way, false, [mid], [], none, none, [c, bl.length + 1]⟩⟩ : List (Block V)).set c ⟨vlc, some { nd with
        keys := nd.keys.take (nd.keys.length / 2),
        values := nd.values.take (nd.values.length / 2),
        next := some (bl.length + 1) }⟩ : List (Block V))).get? x = some bx := by
            intro x bx hx hxc hxr hx_lt
            rw [get?_set_ne _ _ _ _ hxc]
            rw [get?_set_ne _ _ _ _ (by omega)]
            rw [get?_append_lt _ _ _ (by simp; omega)]
            rw [get?_set_ne _ _ _ _ hxr]
            rw [get?_append_lt _ _ _ (by simp; omega)]
            rw [get?_set_ne _ _ _ _ hxc]
            rw [get?_set_ne _ _ _ _ hxc]
            exact hx
          constructor
          · refine ⟨rfl, by simp, ?_⟩
            intro i bb hgi
            by_cases hic : i = c
            · subst hic
              rw [get?_set_self _ _ _ (by simp; omega)] at hgi
              injection hgi with hgi1
              subst hgi1
              refine ⟨_, rfl, ?_, ?_⟩
              · intro hfalse
                rw [show ({ nd with
        keys := nd.keys.take (nd.keys.length / 2),
        values := nd.values.take (nd.values.length / 2),
        next := some (bl.length + 1) } : BPlusTreeNode V).isLeaf = nd.isLeaf
                  from rfl, hndL] at hfalse
                cases hfalse
              · intro _
                show (nd.values.take (nd.values.length / 2)).length =
                  (nd.keys.take (nd.keys.length / 2)).length
                rw [hndk, hndv]
                simp only [List.length_take]
                omega
            · rw [get?_set_ne _ _ _ _ hic] at hgi
              by_cases hin : i = bl.length
              · subst hin
                rw [get?_set_self _ _ _ (by simp only [List.length_append, List.length_set, List.length_cons, List.length_nil]; omega)] at hgi
                injection hgi with hgi1
                subst hgi1
                refine ⟨_, rfl, ?_, ?_⟩
                · intro _
                  rfl
                · intro htrue
                  exact nomatch htrue
              · rw [get?_set_ne _ _ _ _ hin] at hgi
                by_cases hir : i = root
                · subst hir
                  rw [get?_append_lt _ _ _ (by simp; omega)] at hgi
                  rw [get?_set_self _ _ _ (by simp; omega)] at hgi
                  injection hgi with hgi1
                  subst hgi1
                  refine ⟨_, rfl, ?_, ?_⟩
                  · intro _
                    show rn.pointers.length = rn.keys.length + 1
                    rw [hptr, hk0]
                    simp
                  · intro htrue
                    rw [show ({ rn with parent := some bl.length } : BPlusTreeNode V).isLeaf = rn.isLeaf
                      from rfl, hinner] at htrue
                    cases htrue
                · by_cases his : i = bl.length + 1
                  · subst his
                    rw [show bl.length + 1 = ((((bl.set c ⟨vlc, some nd⟩ : List (Block V)).set c ⟨vlc, some { nd with
        keys := nd.keys.take (nd.keys.length / 2),
        values := nd.values.take (nd.values.length / 2) }⟩ ++
      [⟨true, some ⟨none, nd.way, false, [], [], none, none, [c]⟩⟩] : List (Block V)).set root ⟨vlr, some { rn with parent := some bl.length }⟩ : List (Block V))).length from by simp]
                      at hgi
                    rw [get?_append_len] at hgi
                    injection hgi with hgi1
                    subst hgi1
                    refine ⟨_, rfl, ?_, ?_⟩
                    · intro hfalse
                      exact nomatch hfalse
                    · intro _
                      show (nd.values.drop (nd.values.length / 2)).length =
                        (mid :: rest).length
                      rw [hndv]
                      simp only [List.length_drop, List.length_cons]
                      omega
                  · by_cases hilt : i < bl.length
                    · rw [get?_append_lt _ _ _ (by simp; omega)] at hgi
                      rw [get?_set_ne _ _ _ _ hir] at hgi
                      rw [get?_append_lt _ _ _ (by simp; omega)] at hgi
                      rw [get?_set_ne _ _ _ _ hic] at hgi
                      rw [get?_set_ne _ _ _ _ hic] at hgi
                      exact hblocks i bb hgi
                    · rw [get?_none_of_le _ _ (by simp; omega)] at hgi
                      cases hgi
          · have hA : nodeAt (⟨((((((bl.set c ⟨vlc, some nd⟩ : List (Block V)).set c ⟨vlc, some { nd with
        keys := nd.keys.take (nd.keys.length / 2),
        values := nd.values.take (nd.values.length / 2) }⟩ ++
      [⟨true, some ⟨none, nd.way, false, [], [], none, none, [c]⟩⟩] : List (Block V)).set root ⟨vlr, some { rn with parent := some bl.length }⟩ : List (Block V)) ++ [⟨true, some ⟨some bl.length, nd.way, true, mid :: rest,
        nd.values.drop (nd.values.length / 2), some c, nd.next, []⟩⟩] : List (Block V)).set bl.length ⟨true, some ⟨none, nd.way, false, [mid], [], none, none, [c, bl.length + 1]⟩⟩ : List (Block V)).set c ⟨vlc, some { nd with
        keys := nd.keys.take (nd.keys.length / 2),
        values := nd.values.take (nd.values.length / 2),
        next := some (bl.length + 1) }⟩ : List (Block V)), bl.length + 2, []⟩ :
                MemoryBlockEngine V) bl.length = some ⟨none, nd.way, false, [mid], [], none, none, [c, bl.length + 1]⟩ := by
              unfold nodeAt
              rw [get?_set_ne _ _ _ _ (by omega)]
              rw [get?_set_self _ _ _ (by simp only [List.length_append, List.length_set, List.length_cons, List.length_nil]; omega)]
            have hB : nodeAt (⟨((((((bl.set c ⟨vlc, some nd⟩ : List (Block V)).set c ⟨vlc, some { nd with
        keys := nd.keys.take (nd.keys.length / 2),
        values := nd.values.take (nd.values.length / 2) }⟩ ++
      [⟨true, some ⟨none, nd.way, false, [], [], none, none, [c]⟩⟩] : List (Block V)).set root ⟨vlr, some { rn with parent := some bl.length }⟩ : List (Block V)) ++ [⟨true, some ⟨some bl.length, nd.way, true, mid :: rest,
        nd.values.drop (nd.values.length / 2), some c, nd.next, []⟩⟩] : List (Block V)).set bl.length ⟨true, some ⟨none, nd.way, false, [mid], [], none, none, [c, bl.length + 1]⟩⟩ : List (Block V)).set c ⟨vlc, some { nd with
        keys := nd.keys.take (nd.keys.length / 2),
        values := nd.values.take (nd.values.length / 2),
        next := some (bl.length + 1) }⟩ : List (Block V)), bl.length + 2, []⟩ :
                MemoryBlockEngine V) c = some { nd with
        keys := nd.keys.take (nd.keys.length / 2),
        values := nd.values.take (nd.values.length / 2),
        next := some (bl.length + 1) } := by
              unfold nodeAt
              rw [get?_set_self _ _ _ (by simp; omega)]
            refine ⟨{ rn with parent := some bl.length }, hnroot6, Or.inr ⟨hinner, ⟨k0, hk0⟩,
              ⟨a, b, hptr, ?_, ?_⟩,
              Or.inr ⟨bl.length, rfl, show bl.length ≠ root by omega, ⟨none, nd.way, false, [mid], [], none, none, [c, bl.length + 1]⟩, hA, rfl⟩⟩⟩
            · obtain ⟨na, hna, hnaL⟩ := hla
              by_cases hac : a = c
              · subst hac
                exact ⟨{ nd with
        keys := nd.keys.take (nd.keys.length / 2),
        values := nd.values.take (nd.values.length / 2),
        next := some (bl.length + 1) }, hB, hndL⟩
              · obtain ⟨ba, hba, hbac⟩ := nodeAt_some hna
                have har : a ≠ root := by
                  intro he
                  rw [he, hgrb] at hba
                  injection hba with hba1
                  have hcna : (⟨vlr, some rn⟩ : Block V).content = some na := by rw [hba1]; exact hbac
                  have hrn_na : rn = na := Option.some.inj hcna
                  rw [hrn_na, hnaL] at hinner
                  exact nomatch hinner
                refine ⟨na, ?_, hnaL⟩
                unfold nodeAt
                rw [hkeep a ba hba hac har (get?_some_lt hba)]
                exact hbac
            · obtain ⟨nb, hnb, hnbL⟩ := hlb
              by_cases hbc : b = c
              · subst hbc
                exact ⟨{ nd with
        keys := nd.keys.take (nd.keys.length / 2),
        values := nd.values.take (nd.values.length / 2),
        next := some (bl.length + 1) }, hB, hndL⟩
              · obtain ⟨bb2, hbb2, hbb2c⟩ := nodeAt_some hnb
                have hbr : b ≠ root := by
                  intro he
                  rw [he, hgrb] at hbb2
                  injection hbb2 with hbb1
                  have hcnb : (⟨vlr, some rn⟩ : Block V).content = some nb := by rw [hbb1]; exact hbb2c
                  have hrn_nb : rn = nb := Option.some.inj hcnb
                  rw [hrn_nb, hnbL] at hinner
                  exact nomatch hinner
                refine ⟨nb, ?_, hnbL⟩
                unfold nodeAt
                rw [hkeep b bb2 hbb2 hbc hbr (get?_some_lt hbb2)]
                exact hbb2c
        · -- order 0: the root inner split panics
          rw [overflowAndSplit_inner .top root _ none { rn with parent := some bl.length } hnroot6
            (by show rn.way < rn.keys.length; omega) hinner] at h
          rw [splitInner_top_err _ root { rn with parent := some bl.length } vlr k0 hg6root hk0
            (bl.length + 2) (by simp)] at h
          simp at h
      · -- the parent field names the detached inner node p
        have hpc : p ≠ c := by
          intro he
          rw [he, hnc] at hnp
          injection hnp with h2
          rw [← h2, hncL] at hnpI
          exact nomatch hnpI
        obtain ⟨pb, hgp0, hpcc⟩ := nodeAt_some hnp
        obtain ⟨vlp, pcontent⟩ := pb
        have hpccc : pcontent = some np := hpcc
        subst hpccc
        have hp_lt : p < bl.length := get?_some_lt hgp0
        have hppl : np.pointers.length = np.keys.length + 1 := by
          obtain ⟨np2, hnp2c, hIOp, hLOp⟩ := hblocks p ⟨vlp, some np⟩ hgp0
          have h3 : np = np2 := Option.some.inj hnp2c
          rw [h3]
          exact hIOp (by rw [← h3]; exact hnpI)
        have hrp2 : root ≠ p := fun he => hpr he.symm
        rw [splitLeaf_nodeField_some_run (bl.set c ⟨vlc, some nd⟩) c root p
            nd rn np vlc vlr vlp mid rest
            (get?_set_self _ _ _ hc_lt)
            (by rw [get?_set_ne _ _ _ _ hrc]; exact hgrb)
            (by rw [get?_set_ne _ _ _ _ hpc]; exact hgp0)
            hrc hpc hp hppl hdk0 bl.length (by simp)] at hrun
        rw [show ((bl.set c ⟨vlc, some nd⟩ : List (Block V)).length) =
            bl.length from List.length_set bl c _] at hrun
        rw [insertHelper_inner_step k v (bl.length + 1)
          (⟨bl, bl.length, []⟩ : MemoryBlockEngine V) .top none root vlr rn c
          rfl hgrb hinner hchild _ hrun] at h
        have hg6root : (((((bl.set c ⟨vlc, some nd⟩ : List (Block V)).set c ⟨vlc, some { nd with
        keys := nd.keys.take (nd.keys.length / 2),
        values := nd.values.take (nd.values.length / 2) }⟩ ++ [⟨true, some ⟨some p, nd.way, true, mid :: rest,
        nd.values.drop (nd.values.length / 2), some c, nd.next, []⟩⟩] : List (Block V)).set p ⟨vlp, some { np with keys := np.keys.take (unwrapOrIdx (binarySearch np.keys mid)) ++ mid :: np.keys.drop (unwrapOrIdx (binarySearch np.keys mid)), pointers := np.pointers.take ((unwrapOrIdx (binarySearch np.keys mid)) + 1) ++ bl.length :: np.pointers.drop ((unwrapOrIdx (binarySearch np.keys mid)) + 1) }⟩ : List (Block V)).set c ⟨vlc, some { nd with
        keys := nd.keys.take (nd.keys.length / 2),
        values := nd.values.take (nd.values.length / 2),
        next := some bl.length }⟩ : List (Block V))).get? root = some ⟨vlr, some rn⟩ := by
          rw [get?_set_ne _ _ _ _ hrc]
          rw [get?_set_ne _ _ _ _ hrp2]
          rw [get?_append_lt _ _ _ (by simp only [List.length_set, List.length_append, List.length_cons, List.length_nil]; omega)]
          rw [get?_set_ne _ _ _ _ hrc]
          rw [get?_set_ne _ _ _ _ hrc]
          exact hgrb
        have hnroot6 : nodeAt (⟨((((bl.set c ⟨vlc, some nd⟩ : List (Block V)).set c ⟨vlc, some { nd with
        keys := nd.keys.take (nd.keys.length / 2),
        values := nd.values.take (nd.values.length / 2) }⟩ ++ [⟨true, some ⟨some p, nd.way, true, mid :: rest,
        nd.values.drop (nd.values.length / 2), some c, nd.next, []⟩⟩] : List (Block V)).set p ⟨vlp, some { np with keys := np.keys.take (unwrapOrIdx (binarySearch np.keys mid)) ++ mid :: np.keys.drop (unwrapOrIdx (binarySearch np.keys mid)), pointers := np.pointers.take ((unwrapOrIdx (binarySearch np.keys mid)) + 1) ++ bl.length :: np.pointers.drop ((unwrapOrIdx (binarySearch np.keys mid)) + 1) }⟩ : List (Block V)).set c ⟨vlc, some { nd with
        keys := nd.keys.take (nd.keys.length / 2),
        values := nd.values.take (nd.values.length / 2),
        next := some bl.length }⟩ : List (Block V)), bl.length + 1, []⟩ :
            MemoryBlockEngine V) root = some rn := by
          unfold nodeAt
          rw [hg6root]
        by_cases hw : rn.keys.length ≤ rn.way
        · rw [overflowAndSplit_no .top root _ none rn hnroot6 hw] at h
          injection h with h1
          subst h1
          change Inv ⟨w, _, root⟩
          have hkeep : ∀ x bx, bl.get? x = some bx → x ≠ c → x ≠ p →
              x < bl.length → (((((bl.set c ⟨vlc, some nd⟩ : List (Block V)).set c ⟨vlc, some { nd with
        keys := nd.keys.take (nd.keys.length / 2),
        values := nd.values.take (nd.values.length / 2) }⟩ ++ [⟨true, some ⟨some p, nd.way, true, mid :: rest,
        nd.values.drop (nd.values.length / 2), some c, nd.next, []⟩⟩] : List (Block V)).set p ⟨vlp, some { np with keys := np.keys.take (unwrapOrIdx (binarySearch np.keys mid)) ++ mid :: np.keys.drop (unwrapOrIdx (binarySearch np.keys mid)), pointers := np.pointers.take ((unwrapOrIdx (binarySearch np.keys mid)) + 1) ++ bl.length :: np.pointers.drop ((unwrapOrIdx (binarySearch np.keys mid)) + 1) }⟩ : List (Block V)).set c ⟨vlc, some { nd with
        keys := nd.keys.take (nd.keys.length / 2),
        values := nd.values.take (nd.values.length / 2),
        next := some bl.length }⟩ : List (Block V))).get? x = some bx := by
            intro x bx hx hxc hxp hx_lt
            rw [get?_set_ne _ _ _ _ hxc]
            rw [get?_set_ne _ _ _ _ hxp]
            rw [get?_append_lt _ _ _ (by simp only [List.length_set, List.length_append, List.length_cons, List.length_nil]; omega)]
            rw [get?_set_ne _ _ _ _ hxc]
            rw [get?_set_ne _ _ _ _ hxc]
            exact hx
          constructor
          · refine ⟨rfl, by simp, ?_⟩
            intro i bb hgi
            by_cases hic : i = c
            · subst hic
              rw [get?_set_self _ _ _ (by simp only [List.length_set, List.length_append, List.length_cons, List.length_nil]; omega)] at hgi
              injection hgi with hgi1
              subst hgi1
              refine ⟨_, rfl, ?_, ?_⟩
              · intro hfalse
                rw [show ({ nd with
        keys := nd.keys.take (nd.keys.length / 2),
        values := nd.values.take (nd.values.length / 2),
        next := some bl.length } : BPlusTreeNode V).isLeaf = nd.isLeaf
                  from rfl, hndL] at hfalse
                cases hfalse
              · intro _
                show (nd.values.take (nd.values.length / 2)).length =
                  (nd.keys.take (nd.keys.length / 2)).length
                rw [hndk, hndv]
                simp only [List.length_take]
                omega
            · rw [get?_set_ne _ _ _ _ hic] at hgi
              by_cases hip : i = p
              · subst hip
                rw [get?_set_self _ _ _ (by simp only [List.length_set, List.length_append, List.length_cons, List.length_nil]; omega)] at hgi
                injection hgi with hgi1
                subst hgi1
                refine ⟨_, rfl, ?_, ?_⟩
                · intro _
                  show (np.pointers.take ((unwrapOrIdx (binarySearch np.keys mid)) + 1) ++ bl.length :: np.pointers.drop ((unwrapOrIdx (binarySearch np.keys mid)) + 1)).length = (np.keys.take (unwrapOrIdx (binarySearch np.keys mid)) ++ mid :: np.keys.drop (unwrapOrIdx (binarySearch np.keys mid))).length + 1
                  rw [length_insert_at np.keys (unwrapOrIdx (binarySearch np.keys mid)) mid (unwrapOrIdx_le np.keys mid)]
                  rw [length_insert_at np.pointers ((unwrapOrIdx (binarySearch np.keys mid)) + 1) bl.length (by have := unwrapOrIdx_le np.keys mid; omega)]
                  omega
                · intro htrue
                  rw [show ({ np with keys := np.keys.take (unwrapOrIdx (binarySearch np.keys mid)) ++ mid :: np.keys.drop (unwrapOrIdx (binarySearch np.keys mid)), pointers := np.pointers.take ((unwrapOrIdx (binarySearch np.keys mid)) + 1) ++ bl.length :: np.pointers.drop ((unwrapOrIdx (binarySearch np.keys mid)) + 1) } : BPlusTreeNode V).isLeaf = np.isLeaf
                    from rfl, hnpI] at htrue
                  cases htrue
              · rw [get?_set_ne _ _ _ _ hip] at hgi
                by_cases hin : i = bl.length
                · subst hin
                  rw [show bl.length = ((bl.set c ⟨vlc, some nd⟩ : List (Block V)).set c ⟨vlc, some { nd with
        keys := nd.keys.take (nd.keys.length / 2),
        values := nd.values.take (nd.values.length / 2) }⟩).length from by simp] at hgi
                  rw [get?_append_len] at hgi
                  injection hgi with hgi1
                  subst hgi1
                  refine ⟨_, rfl, ?_, ?_⟩
                  · intro hfalse
                    exact nomatch hfalse
                  · intro _
                    show (nd.values.drop (nd.values.length / 2)).length =
                      (mid :: rest).length
                    rw [hndv]
                    simp only [List.length_drop, List.length_cons]
                    omega
                · by_cases hilt : i < bl.length
                  · rw [get?_append_lt _ _ _ (by simp only [List.length_set, List.length_append, List.length_cons, List.length_nil]; omega)] at hgi
                    rw [get?_set_ne _ _ _ _ hic] at hgi
                    rw [get?_set_ne _ _ _ _ hic] at hgi
                    exact hblocks i bb hgi
                  · rw [get?_none_of_le _ _ (by simp only [List.length_set, List.length_append, List.length_cons, List.length_nil]; omega)] at hgi
                    cases hgi
          · have hB : nodeAt (⟨((((bl.set c ⟨vlc, some nd⟩ : List (Block V)).set c ⟨vlc, some { nd with
        keys := nd.keys.take (nd.keys.length / 2),
        values := nd.values.take (nd.values.length / 2) }⟩ ++ [⟨true, some ⟨some p, nd.way, true, mid :: rest,
        nd.values.drop (nd.values.length / 2), some c, nd.next, []⟩⟩] : List (Block V)).set p ⟨vlp, some { np with keys := np.keys.take (unwrapOrIdx (binarySearch np.keys mid)) ++ mid :: np.keys.drop (unwrapOrIdx (binarySearch np.keys mid)), pointers := np.pointers.take ((unwrapOrIdx (binarySearch np.keys mid)) + 1) ++ bl.length :: np.pointers.drop ((unwrapOrIdx (binarySearch np.keys mid)) + 1) }⟩ : List (Block V)).set c ⟨vlc, some { nd with
        keys := nd.keys.take (nd.keys.length / 2),
        values := nd.values.take (nd.values.length / 2),
        next := some bl.length }⟩ : List (Block V)), bl.length + 1, []⟩ :
                MemoryBlockEngine V) c = some { nd with
        keys := nd.keys.take (nd.keys.length / 2),
        values := nd.values.take (nd.values.length / 2),
        next := some bl.length } := by
              unfold nodeAt
              rw [get?_set_self _ _ _ (by simp only [List.length_set, List.length_append, List.length_cons, List.length_nil]; omega)]
            have hP : nodeAt (⟨((((bl.set c ⟨vlc, some nd⟩ : List (Block V)).set c ⟨vlc, some { nd with
        keys := nd.keys.take (nd.keys.length / 2),
        values := nd.values.take (nd.values.length / 2) }⟩ ++ [⟨true, some ⟨some p, nd.way, true, mid :: rest,
        nd.values.drop (nd.values.length / 2), some c, nd.next, []⟩⟩] : List (Block V)).set p ⟨vlp, some { np with keys := np.keys.take (unwrapOrIdx (binarySearch np.keys mid)) ++ mid :: np.keys.drop (unwrapOrIdx (binarySearch np.keys mid)), pointers := np.pointers.take ((unwrapOrIdx (binarySearch np.keys mid)) + 1) ++ bl.length :: np.pointers.drop ((unwrapOrIdx (binarySearch np.keys mid)) + 1) }⟩ : List (Block V)).set c ⟨vlc, some { nd with
        keys := nd.keys.take (nd.keys.length / 2),
        values := nd.values.take (nd.values.length / 2),
        next := some bl.length }⟩ : List (Block V)), bl.length + 1, []⟩ :
                MemoryBlockEngine V) p = some { np with keys := np.keys.take (unwrapOrIdx (binarySearch np.keys mid)) ++ mid :: np.keys.drop (unwrapOrIdx (binarySearch np.keys mid)), pointers := np.pointers.take ((unwrapOrIdx (binarySearch np.keys mid)) + 1) ++ bl.length :: np.pointers.drop ((unwrapOrIdx (binarySearch np.keys mid)) + 1) } := by
              unfold nodeAt
              rw [get?_set_ne _ _ _ _ hpc]
              rw [get?_set_self _ _ _ (by simp only [List.length_set, List.length_append, List.length_cons, List.length_nil]; omega)]
            refine ⟨rn, hnroot6, Or.inr ⟨hinner, ⟨k0, hk0⟩,
              ⟨a, b, hptr, ?_, ?_⟩,
              Or.inr ⟨p, hp, hpr, { np with keys := np.keys.take (unwrapOrIdx (binarySearch np.keys mid)) ++ mid :: np.keys.drop (unwrapOrIdx (binarySearch np.keys mid)), pointers := np.pointers.take ((unwrapOrIdx (binarySearch np.keys mid)) + 1) ++ bl.length :: np.pointers.drop ((unwrapOrIdx (binarySearch np.keys mid)) + 1) }, hP, hnpI⟩⟩⟩
            · obtain ⟨na, hna, hnaL⟩ := hla
              by_cases hac : a = c
              · subst hac
                exact ⟨{ nd with
        keys := nd.keys.take (nd.keys.length / 2),
        values := nd.values.take (nd.values.length / 2),
        next := some bl.length }, hB, hndL⟩
              · obtain ⟨ba, hba, hbac⟩ := nodeAt_some hna
                have hap : a ≠ p := by
                  intro he
                  rw [he, hnp] at hna
                  have h4 : np = na := Option.some.inj hna
                  rw [← h4, hnpI] at hnaL
                  exact nomatch hnaL
                refine ⟨na, ?_, hnaL⟩
                unfold nodeAt
                rw [hkeep a ba hba hac hap (get?_some_lt hba)]
                exact hbac
            · obtain ⟨nb, hnb, hnbL⟩ := hlb
              by_cases hbc : b = c
              · subst hbc
                exact ⟨{ nd with
        keys := nd.keys.take (nd.keys.length / 2),
        values := nd.values.take (nd.values.length / 2),
        next := some bl.length }, hB, hndL⟩
              · obtain ⟨bb2, hbb2, hbb2c⟩ := nodeAt_some hnb
                have hbp : b ≠ p := by
                  intro he
                  rw [he, hnp] at hnb
                  have h4 : np = nb := Option.some.inj hnb
                  rw [← h4, hnpI] at hnbL
                  exact nomatch hnbL
                refine ⟨nb, ?_, hnbL⟩
                unfold nodeAt
                rw [hkeep b bb2 hbb2 hbc hbp (get?_some_lt hbb2)]
                exact hbb2c
        · -- order 0: the root inner split panics
          rw [overflowAndSplit_inner .top root _ none rn hnroot6
            (by omega) hinner] at h
          rw [splitInner_top_err _ root rn vlr k0 hg6root hk0
            (bl.length + 1) (by simp)] at h
          simp at h

theorem inv_step (s s1 : BPlusTree V) (k : Nat) (v : V)
    (hinv : Inv s) (h : s.insert k v = .ok s1) : Inv s1 := by
  obtain ⟨w, e, root⟩ := s
  obtain ⟨⟨hfl, hnb, hblocks⟩, rs⟩ := hinv
  obtain ⟨bl, nb, fl⟩ := e
  replace hfl : fl = [] := hfl
  replace hnb : nb = bl.length := hnb
  subst hfl
  subst hnb
  unfold BPlusTree.insert at h
  obtain ⟨rn, hroot, hshape⟩ := rs
  obtain ⟨⟨vlr, rcont⟩, hgrb, hcc⟩ := nodeAt_some hroot
  have hccc : rcont = some rn := hcc
  subst hccc
  rcases hshape with hleaf | ⟨hinner, ⟨k0, hk0⟩, ⟨a, b, hptr, hla, hlb⟩, hpar⟩
  · exact inv_step_leafroot w root bl k v s1 hblocks vlr rn hgrb hleaf h
  · exact inv_step_innerroot w root bl k v s1 hblocks vlr rn hgrb hinner
      k0 hk0 a b hptr hla hlb hpar h

theorem reach_inv (w : Nat) (s : BPlusTree V) (h : Reach V w s) : Inv s := by
  induction h with
  | base => exact inv_base V w
  | step k v hr hstep ih => exact inv_step _ _ k v ih hstep

/-- C5: In every inner node of every tree state reachable by any sequence of
insert operations from a fresh tree, the number of child pointers equals the
number of keys plus one (pointers.length = keys.length + 1); this holds in
particular for the states produced by the splits that insert performs. -/
theorem C5_inner_pointers_eq_keys_succ (V : Type) (w : Nat) (s : BPlusTree V)
    (h : Reach V w s) (i : Nat) (b : Block V) (n : BPlusTreeNode V)
    (hb : s.engine.blocks.get? i = some b) (hc : b.content = some n)
    (hlf : n.isLeaf = false) :
    n.pointers.length = n.keys.length + 1 := by
  obtain ⟨⟨hfl, hnb, hblocks⟩, _⟩ := reach_inv w s h
  obtain ⟨n2, hc2, hIO, hLO⟩ := hblocks i b hb
  rw [hc] at hc2
  injection hc2 with h2
  rw [h2]
  exact hIO (by rw [← h2]; exact hlf)

theorem C5_inner_pointers_eq_keys_succ_witness :
    (⟨none, 2, false, [2], [], none, none, [0, 2]⟩ :
      BPlusTreeNode Nat).pointers.length =
    (⟨none, 2, false, [2], [], none, none, [0, 2]⟩ :
      BPlusTreeNode Nat).keys.length + 1 := by
  have h1 : (newTree 2 : BPlusTree Nat).insert 1 10 =
      .ok ⟨2, ⟨[⟨true, some ⟨none, 2, true, [1], [10], none, none, []⟩⟩],
        1, []⟩, 0⟩ := by rfl
  have h2 : (⟨2, ⟨[⟨true, some ⟨none, 2, true, [1], [10], none, none, []⟩⟩],
        1, []⟩, 0⟩ : BPlusTree Nat).insert 2 20 =
      .ok ⟨2, ⟨[⟨true, some ⟨none, 2, true, [1, 2], [10, 20], none, none,
        []⟩⟩], 1, []⟩, 0⟩ := by rfl
  have h3 : (⟨2, ⟨[⟨true, some ⟨none, 2, true, [1, 2], [10, 20], none, none,
        []⟩⟩], 1, []⟩, 0⟩ : BPlusTree Nat).insert 3 30 =
      .ok ⟨2, ⟨[
        ⟨true, some ⟨none, 2, true, [1], [10], none, some 2, []⟩⟩,
        ⟨true, some ⟨none, 2, false, [2], [], none, none, [0, 2]⟩⟩,
        ⟨true, some ⟨some 1, 2, true, [2, 3], [20, 30], some 0, none, []⟩⟩],
        3, []⟩, 1⟩ := by rfl
  have hreach : Reach Nat 2 ⟨2, ⟨[
        ⟨true, some ⟨none, 2, true, [1], [10], none, some 2, []⟩⟩,
        ⟨true, some ⟨none, 2, false, [2], [], none, none, [0, 2]⟩⟩,
        ⟨true, some ⟨some 1, 2, true, [2, 3], [20, 30], some 0, none, []⟩⟩],
        3, []⟩, 1⟩ :=
    Reach.step 3 30 (Reach.step 2 20 (Reach.step 1 10 Reach.base h1) h2) h3
  exact C5_inner_pointers_eq_keys_succ Nat 2 _ hreach 1
    ⟨true, some ⟨none, 2, false, [2], [], none, none, [0, 2]⟩⟩ _ rfl rfl rfl
